import Mathlib

/-!
# Verification of the Schematron analysis pipeline

A shallow embedding of the extraction → detection → classification → synthesis
pipeline of the Schematron repository (`src/website-analyzer.ts` and the schema
synthesizer `generateSchemaMarkup` in `src/index.ts`), together with theorems
settling the specification claims about it.

The source operates on an HTML document parsed by cheerio.  The embedding works
over the parsed DOM: a forest of element/text nodes, with tag names already
lowercased (as cheerio normalizes them).  CSS selector uses of the form
`$(sel).length > 0` are modelled by `List.any` over the document-order element
list, and `$(sel)`-collection uses by `List.filter` over the same list.
-/

set_option maxHeartbeats 1000000

namespace Schematron

/-- A DOM forest in first-child/next-sibling encoding: `elem tag attrs children sib`
is an element node followed by its next siblings `sib`; `text data sib` is a text
node.  Tag and attribute names are stored lowercased. -/
inductive Dom where
  | nil : Dom
  | elem (tag : String) (attrs : List (String × String)) (children : Dom) (sib : Dom) : Dom
  | text (data : String) (sib : Dom) : Dom
deriving DecidableEq

/-- A flattened view of one element: its tag, attributes and child forest. -/
structure Elt where
  tag : String
  attrs : List (String × String)
  children : Dom
deriving DecidableEq

/-- Concatenated character data of all text nodes in a forest
(models cheerio `.text()`). -/
def textOf : Dom → String
  | .nil => ""
  | .elem _ _ c rest => textOf c ++ textOf rest
  | .text s rest => s ++ textOf rest

/-- All elements of a forest in document (pre)order: the set `$('*')` traverses,
and the base list every selector filters. -/
def eltsOf : Dom → List Elt
  | .nil => []
  | .elem t a c rest => ⟨t, a, c⟩ :: (eltsOf c ++ eltsOf rest)
  | .text _ rest => eltsOf rest

/-- Inner text of one element (models cheerio `.text()` on a single element, and
`.html()` for elements whose content is plain text, e.g. inline scripts). -/
def Elt.innerText (e : Elt) : String := textOf e.children

/-- Attribute lookup (first occurrence), models cheerio `.attr(name)`. -/
def getAttr (e : Elt) (n : String) : Option String :=
  (e.attrs.find? (fun p => p.1 == n)).map (·.2)

/-- `startsL n l` : `n` is a prefix of `l`. -/
def startsL : List Char → List Char → Bool
  | [], _ => true
  | _ :: _, [] => false
  | a :: as, b :: bs => a == b && startsL as bs

/-- `subL n l` : `n` occurs as a contiguous sublist of `l`. -/
def subL (n : List Char) : List Char → Bool
  | [] => n.isEmpty
  | c :: rest => startsL n (c :: rest) || subL n rest

/-- `hay` contains `needle` as a substring — models JS `String.includes` and the
CSS substring attribute operator `[attr*="needle"]`. -/
def containsSub (hay needle : String) : Bool := subL needle.data hay.data

/-- Split a character list at every occurrence of `sep` (models JS
`String.split(sep)` for a one-character separator; `""` splits to `[""]`). -/
def splitChar (sep : Char) : List Char → List (List Char)
  | [] => [[]]
  | c :: rest =>
    let r := splitChar sep rest
    if c == sep then [] :: r
    else match r with
      | [] => [[c]]
      | h :: t => (c :: h) :: t

/-- Split at every character satisfying `p` (used for whitespace splitting). -/
def splitPred (p : Char → Bool) : List Char → List (List Char)
  | [] => [[]]
  | c :: rest =>
    let r := splitPred p rest
    if p c then [] :: r
    else match r with
      | [] => [[c]]
      | h :: t => (c :: h) :: t

/-- Drop leading whitespace characters. -/
def dropWs : List Char → List Char
  | [] => []
  | c :: rest => if c.isWhitespace then dropWs rest else c :: rest

/-- Strip whitespace from both ends (models JS `String.trim`). -/
def trimJs (s : String) : String := .mk ((dropWs (dropWs s.data).reverse).reverse)

/-- Lowercase every character (models JS `String.toLowerCase` for the ASCII
range exercised here). -/
def toLowerJs (s : String) : String := .mk (s.data.map Char.toLower)

/-- JS `String.split(' ')` returning strings. -/
def splitSpaces (s : String) : List String :=
  (splitChar ' ' s.data).map (fun l => String.mk l)

/-- Class tokens of an element: the `class` attribute value split on spaces,
trimmed, empties dropped.  Used both by the `.cls` class selector and by the
extractor's `class.split(' ')` accumulation. -/
def classTokens (e : Elt) : List String :=
  ((splitSpaces ((getAttr e "class").getD "")).map trimJs).filter (· ≠ "")

/-- `$('t').length > 0` : some element has tag `t`. -/
def hasTagSel (page : Dom) (t : String) : Bool :=
  (eltsOf page).any (fun e => e.tag == t)

/-- `$('.c').length > 0` : some element has class token `c`. -/
def hasClassSel (page : Dom) (c : String) : Bool :=
  (eltsOf page).any (fun e => (classTokens e).contains c)

/-- `$('[class*="s"]').length > 0` : some element's class attribute contains `s`. -/
def classContainsSel (page : Dom) (s : String) : Bool :=
  (eltsOf page).any (fun e =>
    match getAttr e "class" with
    | some v => containsSub v s
    | none => false)

/-- `$('t[a*="s"]').length > 0`. -/
def attrContainsSel (page : Dom) (t a s : String) : Bool :=
  (eltsOf page).any (fun e =>
    e.tag == t &&
    (match getAttr e a with
     | some v => containsSub v s
     | none => false))

/-- `$('[a*="s"]').length > 0` (no tag restriction, e.g. `[id*="comment"]`). -/
def anyAttrContainsSel (page : Dom) (a s : String) : Bool :=
  (eltsOf page).any (fun e =>
    match getAttr e a with
    | some v => containsSub v s
    | none => false)

/-- `$('[a]').length > 0` : some element carries attribute `a`
(e.g. `[data-reactroot]`, `[ng-app]`). -/
def anyHasAttrSel (page : Dom) (a : String) : Bool :=
  (eltsOf page).any (fun e => (getAttr e a).isSome)

/-- `$('t[a="v"]').length > 0` (exact attribute match, e.g. `input[type="search"]`). -/
def attrEqSel (page : Dom) (t a v : String) : Bool :=
  (eltsOf page).any (fun e => e.tag == t && getAttr e a == some v)

/-- The ten boolean UI-pattern flags (`DetectedElements` in `src/types.ts`). -/
structure DetectedElements where
  hasVideo : Bool
  hasImages : Bool
  hasForms : Bool
  hasNavigation : Bool
  hasFooter : Bool
  hasSidebar : Bool
  hasComments : Bool
  hasSearch : Bool
  hasShoppingCart : Bool
  hasUserAuth : Bool

/-- Embedding of `WebsiteAnalyzer.detectElements`. -/
def detectElements (page : Dom) : DetectedElements where
  hasVideo := hasTagSel page "video" || attrContainsSel page "iframe" "src" "youtube" ||
    attrContainsSel page "iframe" "src" "vimeo"
  hasImages := hasTagSel page "img"
  hasForms := hasTagSel page "form"
  hasNavigation := hasTagSel page "nav" || hasClassSel page "nav" || hasClassSel page "navigation"
  hasFooter := hasTagSel page "footer" || hasClassSel page "footer"
  hasSidebar := hasClassSel page "sidebar" || hasClassSel page "side-bar" || hasTagSel page "aside"
  hasComments := hasClassSel page "comments" || hasClassSel page "comment" ||
    anyAttrContainsSel page "id" "comment"
  hasSearch := attrEqSel page "input" "type" "search" || hasClassSel page "search" ||
    anyAttrContainsSel page "id" "search"
  hasShoppingCart := hasClassSel page "cart" || hasClassSel page "shopping-cart" ||
    anyAttrContainsSel page "id" "cart"
  hasUserAuth := hasClassSel page "login" || hasClassSel page "signin" ||
    anyAttrContainsSel page "id" "login" || anyAttrContainsSel page "id" "signin"

/-- `TechnicalDetails` record (`src/types.ts`). -/
structure TechnicalDetails where
  framework : Option String
  cms : Option String
  analytics : List String
  socialMedia : List String
  paymentMethods : List String

/-- Per-script analytics detections, in the order the source tests them. -/
def scriptAnalytics (content : String) : List String :=
  (if containsSub content "google-analytics" || containsSub content "gtag" then
    ["Google Analytics"] else []) ++
  (if containsSub content "facebook" && containsSub content "pixel" then
    ["Facebook Pixel"] else []) ++
  (if containsSub content "mixpanel" then ["Mixpanel"] else [])

/-- `$('meta[name="generator"]').attr('content')`: the `content` attribute of the
first matching meta element. -/
def metaGeneratorContent (page : Dom) : Option String :=
  ((eltsOf page).find? (fun e => e.tag == "meta" && getAttr e "name" == some "generator")).bind
    (fun e => getAttr e "content")

/-- React detection rule of `detectTechnicalDetails`. -/
def reactDetected (page : Dom) : Bool :=
  attrContainsSel page "script" "src" "react" || anyHasAttrSel page "data-reactroot"

/-- Vue detection rule of `detectTechnicalDetails`. -/
def vueDetected (page : Dom) : Bool :=
  attrContainsSel page "script" "src" "vue" || anyHasAttrSel page "data-v-"

/-- Angular detection rule of `detectTechnicalDetails`. -/
def angularDetected (page : Dom) : Bool :=
  attrContainsSel page "script" "src" "angular" || anyHasAttrSel page "ng-app"

/-- WordPress detection rule of `detectTechnicalDetails`. -/
def wordpressDetected (page : Dom) : Bool :=
  (metaGeneratorContent page).any (fun c => containsSub c "WordPress")

/-- Drupal detection rule of `detectTechnicalDetails`. -/
def drupalDetected (page : Dom) : Bool :=
  (metaGeneratorContent page).any (fun c => containsSub c "Drupal")

/-- Joomla detection rule of `detectTechnicalDetails`. -/
def joomlaDetected (page : Dom) : Bool :=
  (metaGeneratorContent page).any (fun c => containsSub c "Joomla")

/-- Embedding of `WebsiteAnalyzer.detectTechnicalDetails`.  The framework/CMS
checks are the source's three consecutive `if` statements, each overwriting the
previous assignment when it fires. -/
def detectTechnicalDetails (page : Dom) : TechnicalDetails :=
  let analytics :=
    ((eltsOf page).filter (fun e => e.tag == "script")).flatMap
      (fun e => scriptAnalytics e.innerText)
  let socialMedia :=
    (if attrContainsSel page "a" "href" "facebook.com" then ["Facebook"] else []) ++
    (if attrContainsSel page "a" "href" "twitter.com" then ["Twitter"] else []) ++
    (if attrContainsSel page "a" "href" "linkedin.com" then ["LinkedIn"] else []) ++
    (if attrContainsSel page "a" "href" "instagram.com" then ["Instagram"] else []) ++
    (if attrContainsSel page "a" "href" "youtube.com" then ["YouTube"] else [])
  let paymentMethods :=
    (if attrContainsSel page "img" "src" "stripe" then ["Stripe"] else []) ++
    (if attrContainsSel page "img" "src" "paypal" then ["PayPal"] else []) ++
    (if attrContainsSel page "img" "src" "square" then ["Square"] else []) ++
    (if classContainsSel page "stripe" then ["Stripe"] else []) ++
    (if classContainsSel page "paypal" then ["PayPal"] else [])
  let framework : Option String := none
  let framework := if reactDetected page then some "React" else framework
  let framework := if vueDetected page then some "Vue.js" else framework
  let framework := if angularDetected page then some "Angular" else framework
  let cms : Option String := none
  let cms := if wordpressDetected page then some "WordPress" else cms
  let cms := if drupalDetected page then some "Drupal" else cms
  let cms := if joomlaDetected page then some "Joomla" else cms
  { framework := framework, cms := cms, analytics := analytics,
    socialMedia := socialMedia, paymentMethods := paymentMethods }

/-- Three sequential overwriting `if` assignments collapse to a reversed-priority
conditional chain. -/
theorem lastWriteWins3 (b1 b2 b3 : Bool) (x y z : Option String) :
    (let f : Option String := none
     let f := if b1 then x else f
     let f := if b2 then y else f
     if b3 then z else f) =
      (if b3 then z else if b2 then y else if b1 then x else none) := by
  cases b1 <;> cases b2 <;> cases b3 <;> rfl

/-- Page loading both a React and a Vue script. -/
def pageReactVue : Dom :=
  .elem "script" [("src", "https://cdn.test/react.min.js")] .nil
    (.elem "script" [("src", "https://cdn.test/vue.min.js")] .nil .nil)

/-- C1 counterexample: on a page matching both the React rule and the Vue rule,
the recorded framework is `Vue.js` — the *later* rule overrode the earlier hit,
so first-match-wins does not hold. -/
theorem framework_first_match_false :
    reactDetected pageReactVue = true ∧ vueDetected pageReactVue = true ∧
    (detectTechnicalDetails pageReactVue).framework = some "Vue.js" ∧
    (some "Vue.js" : Option String) ≠ some "React" := by
  refine ⟨by decide, by decide, by decide, by decide⟩

/-- C1 (amended): `TechnicalDetails.framework` and `.cms` are assigned
last-match-wins over the rule list tested in the order React, Vue, Angular
(resp. WordPress, Drupal, Joomla): the result equals the reversed-priority
first-match chain. -/
theorem framework_cms_last_match (page : Dom) :
    (detectTechnicalDetails page).framework =
      (if angularDetected page then some "Angular"
       else if vueDetected page then some "Vue.js"
       else if reactDetected page then some "React"
       else none) ∧
    (detectTechnicalDetails page).cms =
      (if joomlaDetected page then some "Joomla"
       else if drupalDetected page then some "Drupal"
       else if wordpressDetected page then some "WordPress"
       else none) := by
  constructor
  · show (let f : Option String := none
          let f := if reactDetected page then some "React" else f
          let f := if vueDetected page then some "Vue.js" else f
          if angularDetected page then some "Angular" else f) = _
    exact lastWriteWins3 _ _ _ _ _ _
  · show (let f : Option String := none
          let f := if wordpressDetected page then some "WordPress" else f
          let f := if drupalDetected page then some "Drupal" else f
          if joomlaDetected page then some "Joomla" else f) = _
    exact lastWriteWins3 _ _ _ _ _ _

/-- The fifteen website-type categories (`WebsiteTypeSchema` in `src/types.ts`). -/
inductive WebsiteType where
  | ecommerce | blog | news | portfolio | corporate | social_media | forum
  | documentation | landing_page | saas | educational | entertainment
  | government | nonprofit | unknown
deriving DecidableEq

/-- Embedding of `WebsiteAnalyzer.determineWebsiteType`: the source's sequential
`if … return` chain.  Note the forum branch reproduces the source's operator
precedence: `a && b && c || d || e || f` groups as `(a && b && c) || d || e || f`. -/
def determineWebsiteType (page : Dom) (elements : DetectedElements)
    (technical : TechnicalDetails) (url : String) : WebsiteType :=
  if elements.hasShoppingCart || decide (0 < technical.paymentMethods.length) ||
      hasClassSel page "product" || classContainsSel page "product" ||
      hasClassSel page "price" || classContainsSel page "price" then .ecommerce
  else if hasTagSel page "article" || hasClassSel page "post" || hasClassSel page "blog" ||
      classContainsSel page "post" || classContainsSel page "blog" then .blog
  else if hasClassSel page "news" || classContainsSel page "news" ||
      hasClassSel page "article" || classContainsSel page "article" ||
      hasClassSel page "headline" || classContainsSel page "headline" then .news
  else if hasClassSel page "portfolio" || classContainsSel page "portfolio" ||
      hasClassSel page "gallery" || classContainsSel page "gallery" ||
      hasClassSel page "work" || classContainsSel page "work" then .portfolio
  else if elements.hasUserAuth && elements.hasComments &&
      (elements.hasVideo || elements.hasImages) &&
      decide (0 < technical.socialMedia.length) then .social_media
  else if elements.hasComments && elements.hasUserAuth && hasClassSel page "thread" ||
      classContainsSel page "thread" ||
      hasClassSel page "topic" || classContainsSel page "topic" then .forum
  else if hasClassSel page "documentation" || classContainsSel page "docs" ||
      hasClassSel page "tutorial" || classContainsSel page "tutorial" ||
      hasClassSel page "guide" || classContainsSel page "guide" then .documentation
  else if elements.hasUserAuth && elements.hasForms &&
      (hasClassSel page "dashboard" || classContainsSel page "dashboard" ||
       hasClassSel page "app" || classContainsSel page "app") then .saas
  else if hasClassSel page "course" || classContainsSel page "course" ||
      hasClassSel page "lesson" || classContainsSel page "lesson" ||
      hasClassSel page "education" || classContainsSel page "education" then .educational
  else if elements.hasVideo && (hasClassSel page "entertainment" ||
      classContainsSel page "entertainment" ||
      hasClassSel page "media" || classContainsSel page "media") then .entertainment
  else if hasClassSel page "gov" || classContainsSel page "gov" ||
      containsSub url ".gov" || hasClassSel page "government" then .government
  else if hasClassSel page "nonprofit" || classContainsSel page "nonprofit" ||
      hasClassSel page "charity" || classContainsSel page "charity" ||
      hasClassSel page "donate" || classContainsSel page "donate" then .nonprofit
  else if hasClassSel page "landing" || classContainsSel page "landing" ||
      hasClassSel page "hero" || classContainsSel page "hero" then .landing_page
  else if elements.hasNavigation && elements.hasFooter &&
      (hasClassSel page "about" || classContainsSel page "about" ||
       hasClassSel page "contact" || classContainsSel page "contact") then .corporate
  else .unknown

/-- The classifier's input tuple. -/
structure CIn where
  page : Dom
  elements : DetectedElements
  technical : TechnicalDetails
  url : String

/-- The predicate of each classifier rule, read off the corresponding branch
condition of `determineWebsiteType` (`unknown` and `corporate`-following types
never appear as rule labels except as listed in `priorityOrder`). -/
def rulePred (t : WebsiteType) (i : CIn) : Bool :=
  match t with
  | .ecommerce => i.elements.hasShoppingCart ||
      decide (0 < i.technical.paymentMethods.length) ||
      hasClassSel i.page "product" || classContainsSel i.page "product" ||
      hasClassSel i.page "price" || classContainsSel i.page "price"
  | .blog => hasTagSel i.page "article" || hasClassSel i.page "post" ||
      hasClassSel i.page "blog" ||
      classContainsSel i.page "post" || classContainsSel i.page "blog"
  | .news => hasClassSel i.page "news" || classContainsSel i.page "news" ||
      hasClassSel i.page "article" || classContainsSel i.page "article" ||
      hasClassSel i.page "headline" || classContainsSel i.page "headline"
  | .portfolio => hasClassSel i.page "portfolio" || classContainsSel i.page "portfolio" ||
      hasClassSel i.page "gallery" || classContainsSel i.page "gallery" ||
      hasClassSel i.page "work" || classContainsSel i.page "work"
  | .social_media => i.elements.hasUserAuth && i.elements.hasComments &&
      (i.elements.hasVideo || i.elements.hasImages) &&
      decide (0 < i.technical.socialMedia.length)
  | .forum => i.elements.hasComments && i.elements.hasUserAuth &&
      hasClassSel i.page "thread" || classContainsSel i.page "thread" ||
      hasClassSel i.page "topic" || classContainsSel i.page "topic"
  | .documentation => hasClassSel i.page "documentation" || classContainsSel i.page "docs" ||
      hasClassSel i.page "tutorial" || classContainsSel i.page "tutorial" ||
      hasClassSel i.page "guide" || classContainsSel i.page "guide"
  | .saas => i.elements.hasUserAuth && i.elements.hasForms &&
      (hasClassSel i.page "dashboard" || classContainsSel i.page "dashboard" ||
       hasClassSel i.page "app" || classContainsSel i.page "app")
  | .educational => hasClassSel i.page "course" || classContainsSel i.page "course" ||
      hasClassSel i.page "lesson" || classContainsSel i.page "lesson" ||
      hasClassSel i.page "education" || classContainsSel i.page "education"
  | .entertainment => i.elements.hasVideo && (hasClassSel i.page "entertainment" ||
      classContainsSel i.page "entertainment" ||
      hasClassSel i.page "media" || classContainsSel i.page "media")
  | .government => hasClassSel i.page "gov" || classContainsSel i.page "gov" ||
      containsSub i.url ".gov" || hasClassSel i.page "government"
  | .nonprofit => hasClassSel i.page "nonprofit" || classContainsSel i.page "nonprofit" ||
      hasClassSel i.page "charity" || classContainsSel i.page "charity" ||
      hasClassSel i.page "donate" || classContainsSel i.page "donate"
  | .landing_page => hasClassSel i.page "landing" || classContainsSel i.page "landing" ||
      hasClassSel i.page "hero" || classContainsSel i.page "hero"
  | .corporate => i.elements.hasNavigation && i.elements.hasFooter &&
      (hasClassSel i.page "about" || classContainsSel i.page "about" ||
       hasClassSel i.page "contact" || classContainsSel i.page "contact")
  | .unknown => false

/-- The classifier's fixed priority order, highest first. -/
def priorityOrder : List WebsiteType :=
  [.ecommerce, .blog, .news, .portfolio, .social_media, .forum, .documentation,
   .saas, .educational, .entertainment, .government, .nonprofit, .landing_page, .corporate]

/-- First-match evaluation of the ordered rule list, with `unknown` as fallback. -/
def classifyByRules (i : CIn) : WebsiteType :=
  (priorityOrder.find? (fun t => rulePred t i)).getD .unknown

/-- Evaluating `find?` over the priority list, written as a conditional chain. -/
theorem priorityFirstMatch (p : WebsiteType → Bool) :
    (priorityOrder.find? p).getD .unknown =
      (if p .ecommerce then .ecommerce
       else if p .blog then .blog
       else if p .news then .news
       else if p .portfolio then .portfolio
       else if p .social_media then .social_media
       else if p .forum then .forum
       else if p .documentation then .documentation
       else if p .saas then .saas
       else if p .educational then .educational
       else if p .entertainment then .entertainment
       else if p .government then .government
       else if p .nonprofit then .nonprofit
       else if p .landing_page then .landing_page
       else if p .corporate then .corporate
       else .unknown) := by
  have step : ∀ (a : WebsiteType) (as : List WebsiteType),
      ((a :: as).find? p).getD WebsiteType.unknown =
        (if p a then a else (as.find? p).getD .unknown) := by
    intro a as
    rw [List.find?_cons]
    cases p a <;> simp
  simp only [priorityOrder, step, List.find?_nil, Option.getD_none]

/-- The sequential branch chain of the source equals first-match evaluation of the
ordered rule list. -/
theorem classify_eq_rules (page : Dom) (el : DetectedElements)
    (tech : TechnicalDetails) (url : String) :
    determineWebsiteType page el tech url = classifyByRules ⟨page, el, tech, url⟩ := by
  rw [classifyByRules, priorityFirstMatch]
  rfl

/-- C2: the classifier evaluates its rules strictly in the fixed priority order
(ecommerce, blog, news, portfolio, social_media, forum, documentation, saas,
educational, entertainment, government, nonprofit, landing_page, corporate); the
first rule whose predicate holds determines the result; with no match the result
is `unknown`; and any input satisfying both the ecommerce and the blog predicates
classifies as `ecommerce`. -/
theorem classifier_priority_order (i : CIn) :
    determineWebsiteType i.page i.elements i.technical i.url = classifyByRules i ∧
    (rulePred .ecommerce i = true → rulePred .blog i = true →
      determineWebsiteType i.page i.elements i.technical i.url = .ecommerce) ∧
    ((∀ t, rulePred t i = false) →
      determineWebsiteType i.page i.elements i.technical i.url = .unknown) := by
  obtain ⟨page, el, tech, url⟩ := i
  refine ⟨classify_eq_rules .., ?_, ?_⟩
  · intro h1 _
    rw [classify_eq_rules, classifyByRules, priorityFirstMatch, h1]
    simp
  · intro h
    rw [classify_eq_rules, classifyByRules, priorityFirstMatch]
    simp [h]

/-- Page with one element whose class attribute matches both the ecommerce
(`[class*="product"]`) and the blog (`[class*="post"]`) predicates. -/
def pageBoth : Dom := .elem "div" [("class", "product post")] .nil .nil

/-- All-false detected-elements record. -/
def noElements : DetectedElements :=
  ⟨false, false, false, false, false, false, false, false, false, false⟩

/-- Empty technical-details record. -/
def noTech : TechnicalDetails := ⟨none, none, [], [], []⟩

/-- Witness for C2 at a concrete input satisfying both the ecommerce and the blog
predicates. -/
theorem classifier_priority_order_witness :
    rulePred .ecommerce ⟨pageBoth, noElements, noTech, "https://example.test/"⟩ = true ∧
    rulePred .blog ⟨pageBoth, noElements, noTech, "https://example.test/"⟩ = true ∧
    determineWebsiteType pageBoth noElements noTech "https://example.test/" = .ecommerce :=
  ⟨by decide, by decide,
    (classifier_priority_order ⟨pageBoth, noElements, noTech, "https://example.test/"⟩).2.1
      (by decide) (by decide)⟩

/-- C10: in the source's forum branch, `&&` binds tighter than `||`, so the
`hasComments && hasUserAuth` conjunction guards only the `.thread` class-token
check.  On any page where no higher-priority rule matches, an element whose class
attribute contains `"thread"` or `"topic"`, or carries the class token `"topic"`,
yields `forum` even with `hasComments` and `hasUserAuth` both false. -/
theorem forum_guard_scope (page : Dom) (url : String)
    (h1 : rulePred .ecommerce ⟨page, detectElements page, detectTechnicalDetails page, url⟩ = false)
    (h2 : rulePred .blog ⟨page, detectElements page, detectTechnicalDetails page, url⟩ = false)
    (h3 : rulePred .news ⟨page, detectElements page, detectTechnicalDetails page, url⟩ = false)
    (h4 : rulePred .portfolio ⟨page, detectElements page, detectTechnicalDetails page, url⟩ = false)
    (h5 : rulePred .social_media ⟨page, detectElements page, detectTechnicalDetails page, url⟩ = false)
    (hc : (detectElements page).hasComments = false)
    (hu : (detectElements page).hasUserAuth = false)
    (ht : classContainsSel page "thread" = true ∨ classContainsSel page "topic" = true ∨
      hasClassSel page "topic" = true) :
    determineWebsiteType page (detectElements page) (detectTechnicalDetails page) url = .forum := by
  have hf : rulePred .forum ⟨page, detectElements page, detectTechnicalDetails page, url⟩ = true := by
    simp only [rulePred]
    rcases ht with h | h | h <;> simp [h]
  rw [classify_eq_rules, classifyByRules, priorityFirstMatch, h1, h2, h3, h4, h5, hf]
  simp

/-- Page whose only signal is a class attribute containing `thread` as a
substring (no comments, no auth). -/
def pageThread : Dom := .elem "div" [("class", "mythread")] .nil .nil

/-- Witness for C10 at a concrete page. -/
theorem forum_guard_scope_witness :
    determineWebsiteType pageThread (detectElements pageThread)
      (detectTechnicalDetails pageThread) "https://example.test/" = .forum :=
  forum_guard_scope pageThread "https://example.test/" (by decide) (by decide) (by decide)
    (by decide) (by decide) (by decide) (by decide) (Or.inl (by decide))

/-- JSON-compatible values: the shape of parsed structured data and of the
synthesized schema document. -/
inductive J where
  | s (str : String) : J
  | n (num : Int) : J
  | b (val : Bool) : J
  | null : J
  | arr (elems : List J) : J
  | obj (fields : List (String × J)) : J

/-- JS `a || b` on optional strings: empty and absent are both falsy. -/
def jsOrStr (a b : Option String) : Option String :=
  match a with
  | some s => if s == "" then b else some s
  | none => b

/-- JS `attr(x) || undefined`: turns an empty attribute value into absence. -/
def jsAttrOpt (o : Option String) : Option String :=
  match o with
  | some "" => none
  | x => x

/-- Leading decimal digits of a character list. -/
def takeDigits : List Char → List Nat
  | [] => []
  | c :: rest => if c.isDigit then (c.toNat - 48) :: takeDigits rest else []

/-- JS `parseInt` on the decimal inputs exercised here: skip leading whitespace,
optional sign, then leading digits; `none` models `NaN` (no digits). -/
def parseIntJs (s : String) : Option Int :=
  let l := dropWs s.data
  let signAndRest : Int × List Char :=
    match l with
    | '-' :: rest => (-1, rest)
    | '+' :: rest => (1, rest)
    | _ => (1, l)
  match takeDigits signAndRest.2 with
  | [] => none
  | ds => some (signAndRest.1 * (ds.foldl (fun a d => a * 10 + d) 0 : Nat))

/-- Insert-or-overwrite on an ordered key/value list: JS object assignment
semantics (overwrite keeps the original key position, new keys append). -/
def upsertS (m : List (String × String)) (k v : String) : List (String × String) :=
  if m.any (·.1 == k) then m.map (fun p => if p.1 == k then (k, v) else p)
  else m ++ [(k, v)]

/-- Join with single spaces. -/
def joinSpace : List String → String
  | [] => ""
  | [x] => x
  | x :: rest => x ++ " " ++ joinSpace rest

/-- JS `.replace(/\s+/g, ' ').trim()`: collapse whitespace runs to single spaces
and strip ends. -/
def normalizeWs (s : String) : String :=
  joinSpace (((splitPred Char.isWhitespace s.data).map (fun l => String.mk l)).filter (· ≠ ""))

/-- One image record of `ScrapedData` (`width`/`height`: outer `none` models
`undefined`, inner `none` models `NaN`). -/
structure ImageData where
  src : String
  alt : Option String
  width : Option (Option Int)
  height : Option (Option Int)

/-- One video record of `ScrapedData`. -/
structure VideoData where
  src : Option String
  poster : Option String
  type : String

/-- One link record of `ScrapedData`. -/
structure LinkData where
  href : String
  text : String
  target : Option String

/-- One form-input record of `ScrapedData`. -/
structure InputData where
  type : String
  name : Option String
  placeholder : Option String
  required : Bool

/-- One form record of `ScrapedData`. -/
structure FormEntry where
  action : Option String
  method : Option String
  inputs : List InputData

/-- One script record of `ScrapedData`. -/
structure ScriptData where
  src : Option String
  content : Option String
  type : Option String

/-- The flat extracted snapshot (`ScrapedData` in `src/types.ts`). -/
structure ScrapedData where
  html : String
  title : String
  description : Option String
  metaTags : List (String × String)
  allClasses : List String
  allIds : List String
  allTextContent : String
  images : List ImageData
  videos : List VideoData
  links : List LinkData
  forms : List FormEntry
  scripts : List ScriptData
  stylesheets : List String
  structuredData : List J
  socialMediaLinks : List String
  paymentIndicators : List String
  ecommerceIndicators : List String
  contentIndicators : List String

/-- One class-token step of the extractor's class accumulation:
`if (cls.trim() && !allClasses.includes(cls.trim())) allClasses.push(cls.trim())`. -/
def addClassToken (a : List String) (cls : String) : List String :=
  if trimJs cls != "" && !(a.contains (trimJs cls)) then a ++ [trimJs cls] else a

/-- Per-element class accumulation of `collectScrapedData`. -/
def addClasses (acc : List String) (e : Elt) : List String :=
  match getAttr e "class" with
  | none => acc
  | some cn => if cn == "" then acc else (splitSpaces cn).foldl addClassToken acc

/-- Per-element id accumulation of `collectScrapedData`. -/
def addId (acc : List String) (e : Elt) : List String :=
  match getAttr e "id" with
  | some i => if i != "" && !(acc.contains i) then acc ++ [i] else acc
  | none => acc

/-- `$('meta[a="v"]').attr('content')`. -/
def metaAttrContent (page : Dom) (a v : String) : Option String :=
  ((eltsOf page).find? (fun e => e.tag == "meta" && getAttr e a == some v)).bind
    (fun e => getAttr e "content")

/-- `$('body').text()` with the source's whitespace normalization. -/
def allTextContentOf (page : Dom) : String :=
  normalizeWs (String.join (((eltsOf page).filter (fun e => e.tag == "body")).map Elt.innerText))

/-- Lowercase, split on whitespace (the text is already whitespace-normalized). -/
def textWords (text : String) : List String :=
  (splitPred Char.isWhitespace (toLowerJs text).data).map (fun l => String.mk l)

/-- Contents of `script[type="application/ld+json"]` blocks, in document order,
empty blocks dropped (the source's `if (content)` guard). -/
def ldContents (page : Dom) : List String :=
  ((eltsOf page).filter
    (fun e => e.tag == "script" && getAttr e "type" == some "application/ld+json")).filterMap
    (fun e => if e.innerText == "" then none else some e.innerText)

/-- Embedding of `WebsiteAnalyzer.collectScrapedData`.  `jp` is the JSON parser
(`JSON.parse`, an external capability): `none` models a parse exception, which the
source catches and ignores. -/
def collectScrapedData (jp : String → Option J) (html : String) (page : Dom) : ScrapedData :=
  let allClasses := (eltsOf page).foldl addClasses []
  let allIds := (eltsOf page).foldl addId []
  let metaTags := ((eltsOf page).filter (fun e => e.tag == "meta")).foldl
    (fun m e =>
      let name := jsOrStr (getAttr e "name") (jsOrStr (getAttr e "property") (getAttr e "http-equiv"))
      match name, getAttr e "content" with
      | some nm, some c => if nm != "" && c != "" then upsertS m nm c else m
      | _, _ => m) []
  let allTextContent := allTextContentOf page
  let images := ((eltsOf page).filter (fun e => e.tag == "img")).map
    (fun e =>
      { src := (getAttr e "src").getD ""
        alt := jsAttrOpt (getAttr e "alt")
        width := match getAttr e "width" with
          | some w => if w == "" then none else some (parseIntJs w)
          | none => none
        height := match getAttr e "height" with
          | some h => if h == "" then none else some (parseIntJs h)
          | none => none } : Elt → ImageData)
  let videos := ((eltsOf page).filter
    (fun e => e.tag == "video" ||
      (e.tag == "iframe" && (match getAttr e "src" with
        | some v => containsSub v "youtube"
        | none => false)) ||
      (e.tag == "iframe" && (match getAttr e "src" with
        | some v => containsSub v "vimeo"
        | none => false)))).map
    (fun e =>
      { src := jsAttrOpt (getAttr e "src")
        poster := jsAttrOpt (getAttr e "poster")
        type := if e.tag == "" then "unknown" else e.tag } : Elt → VideoData)
  let links := ((eltsOf page).filter (fun e => e.tag == "a" && (getAttr e "href").isSome)).map
    (fun e =>
      { href := (getAttr e "href").getD ""
        text := trimJs e.innerText
        target := jsAttrOpt (getAttr e "target") } : Elt → LinkData)
  let forms := ((eltsOf page).filter (fun e => e.tag == "form")).map
    (fun f =>
      { action := jsAttrOpt (getAttr f "action")
        method := jsAttrOpt (getAttr f "method")
        inputs := ((eltsOf f.children).filter
          (fun e => e.tag == "input" || e.tag == "select" || e.tag == "textarea")).map
          (fun e =>
            { type := match getAttr e "type" with
                | some t => if t == "" then (if e.tag == "" then "unknown" else e.tag) else t
                | none => if e.tag == "" then "unknown" else e.tag
              name := jsAttrOpt (getAttr e "name")
              placeholder := jsAttrOpt (getAttr e "placeholder")
              required := (getAttr e "required").isSome } : Elt → InputData) } : Elt → FormEntry)
  let scripts := ((eltsOf page).filter (fun e => e.tag == "script")).map
    (fun e =>
      { src := jsAttrOpt (getAttr e "src")
        content := if e.innerText == "" then none else some e.innerText
        type := jsAttrOpt (getAttr e "type") } : Elt → ScriptData)
  let stylesheets := (((eltsOf page).filter
    (fun e => e.tag == "link" && getAttr e "rel" == some "stylesheet")).map
    (fun e => (getAttr e "href").getD "")).filter (· ≠ "")
  let structuredData := ((eltsOf page).filter
    (fun e => e.tag == "script" && getAttr e "type" == some "application/ld+json")).filterMap
    (fun e => if e.innerText == "" then none else jp e.innerText)
  let socialMediaLinks := (links.filter
    (fun l => containsSub l.href "facebook.com" || containsSub l.href "twitter.com" ||
      containsSub l.href "linkedin.com" || containsSub l.href "instagram.com" ||
      containsSub l.href "youtube.com" || containsSub l.href "tiktok.com" ||
      containsSub l.href "snapchat.com")).map (·.href)
  let paymentIndicators := (textWords allTextContent).filter
    (fun w => containsSub w "paypal" || containsSub w "stripe" || containsSub w "square" ||
      containsSub w "visa" || containsSub w "mastercard" || containsSub w "amex" ||
      containsSub w "payment" || containsSub w "checkout" || containsSub w "cart" ||
      containsSub w "buy" || containsSub w "purchase")
  let ecommerceIndicators := (textWords allTextContent).filter
    (fun w => containsSub w "product" || containsSub w "price" || containsSub w "sale" ||
      containsSub w "discount" || containsSub w "shipping" || containsSub w "inventory" ||
      containsSub w "stock" || containsSub w "add to cart" || containsSub w "buy now" ||
      containsSub w "shop")
  let contentIndicators := (textWords allTextContent).filter
    (fun w => containsSub w "article" || containsSub w "blog" || containsSub w "post" ||
      containsSub w "news" || containsSub w "tutorial" || containsSub w "guide" ||
      containsSub w "documentation" || containsSub w "help" || containsSub w "faq")
  { html := html
    title := let t := trimJs (String.join (((eltsOf page).filter (fun e => e.tag == "title")).map Elt.innerText))
             if t == "" then "Untitled" else t
    description := jsOrStr (metaAttrContent page "name" "description")
      (jsOrStr (metaAttrContent page "property" "og:description") none)
    metaTags := metaTags
    allClasses := allClasses
    allIds := allIds
    allTextContent := allTextContent
    images := images
    videos := videos
    links := links
    forms := forms
    scripts := scripts
    stylesheets := stylesheets
    structuredData := structuredData
    socialMediaLinks := socialMediaLinks
    paymentIndicators := paymentIndicators
    ecommerceIndicators := ecommerceIndicators
    contentIndicators := contentIndicators }

/-- One class-token step preserves "no duplicates, no empties". -/
theorem addClassToken_inv (a : List String) (cls : String)
    (h : a.Nodup ∧ ∀ x ∈ a, x ≠ "") :
    (addClassToken a cls).Nodup ∧ ∀ x ∈ addClassToken a cls, x ≠ "" := by
  unfold addClassToken
  split_ifs with hc
  · have hc' : trimJs cls ≠ "" ∧ trimJs cls ∉ a := by simpa using hc
    have h1 : trimJs cls ≠ "" := hc'.1
    have h2 : trimJs cls ∉ a := hc'.2
    refine ⟨h.1.append (List.nodup_singleton _) ?_, ?_⟩
    · intro x hxa hxs
      rw [List.mem_singleton] at hxs
      subst hxs
      exact h2 hxa
    · intro x hx
      rcases List.mem_append.mp hx with hx | hx
      · exact h.2 x hx
      · have := List.mem_singleton.mp hx
        subst this
        exact h1
  · exact h

/-- Folding class tokens preserves the invariant. -/
theorem classFold_inv (toks : List String) (a : List String)
    (h : a.Nodup ∧ ∀ x ∈ a, x ≠ "") :
    (toks.foldl addClassToken a).Nodup ∧ ∀ x ∈ toks.foldl addClassToken a, x ≠ "" := by
  induction toks generalizing a with
  | nil => exact h
  | cons t ts ih => exact ih _ (addClassToken_inv a t h)

/-- One element's class accumulation preserves the invariant. -/
theorem addClasses_inv (acc : List String) (e : Elt)
    (h : acc.Nodup ∧ ∀ x ∈ acc, x ≠ "") :
    (addClasses acc e).Nodup ∧ ∀ x ∈ addClasses acc e, x ≠ "" := by
  cases hcn : getAttr e "class" with
  | none => simpa [addClasses, hcn] using h
  | some cn =>
    simp only [addClasses, hcn]
    split_ifs
    · exact h
    · exact classFold_inv _ _ h

/-- The full fold over all elements preserves the invariant. -/
theorem allClassesFold_inv (es : List Elt) (acc : List String)
    (h : acc.Nodup ∧ ∀ x ∈ acc, x ≠ "") :
    (es.foldl addClasses acc).Nodup ∧ ∀ x ∈ es.foldl addClasses acc, x ≠ "" := by
  induction es generalizing acc with
  | nil => exact h
  | cons e es ih => exact ih _ (addClasses_inv acc e h)

/-- A parser that rejects every block (usable wherever the parser is irrelevant). -/
def jpNone : String → Option J := fun _ => none

/-- Two elements carrying the classes `"a b a"` and `"b c"`. -/
def pageClasses : Dom :=
  .elem "div" [("class", "a b a")] .nil (.elem "span" [("class", "b c")] .nil .nil)

/-- C7: class extraction accumulates tokens non-empty, deduplicated, first-seen
order: on classes `"a b a"` and `"b c"` the result is exactly `[a, b, c]`, and in
general the list is duplicate-free and contains no empty token. -/
theorem classes_dedup :
    (collectScrapedData jpNone "" pageClasses).allClasses = ["a", "b", "c"] ∧
    ∀ jp html page, ((collectScrapedData jp html page).allClasses).Nodup ∧
      ∀ x ∈ (collectScrapedData jp html page).allClasses, x ≠ "" := by
  refine ⟨by decide, ?_⟩
  intro jp html page
  have hrw : (collectScrapedData jp html page).allClasses = (eltsOf page).foldl addClasses [] := rfl
  rw [hrw]
  exact allClassesFold_inv _ _ ⟨List.nodup_nil, by simp⟩

/-- Witness for C7's quantified part at a concrete page and token. -/
theorem classes_dedup_witness :
    ((collectScrapedData jpNone "" pageClasses).allClasses).Nodup ∧ ("a" : String) ≠ "" :=
  ⟨(classes_dedup.2 jpNone "" pageClasses).1,
   (classes_dedup.2 jpNone "" pageClasses).2 "a" (by decide)⟩

/-- The snapshot with its structured data removed. -/
def withoutStructured (d : ScrapedData) : ScrapedData := { d with structuredData := [] }

/-- C8: extraction never fails on any input: `structuredData` is exactly the
document-order list of JSON-LD-typed blocks whose content parses (`filterMap`),
blocks that fail to parse are silently omitted, and the parser's outcome changes
no other snapshot field. -/
theorem structuredData_parse_skip (jp jp' : String → Option J) (html : String) (page : Dom) :
    (collectScrapedData jp html page).structuredData = (ldContents page).filterMap jp ∧
    withoutStructured (collectScrapedData jp html page) =
      withoutStructured (collectScrapedData jp' html page) := by
  constructor
  · show (((eltsOf page).filter _).filterMap _) = _
    rw [ldContents, List.filterMap_filterMap]
    congr 1
    funext e
    cases h : e.innerText == "" <;> simp [h]
  · rfl

/-- The socialMedia accumulation appends five pairwise-distinct labels at most
once each, so it never holds a duplicate. -/
theorem socialMediaNodupAux (page : Dom) :
    ((detectTechnicalDetails page).socialMedia).Nodup := by
  show (((((if attrContainsSel page "a" "href" "facebook.com" then ["Facebook"] else []) ++
        (if attrContainsSel page "a" "href" "twitter.com" then ["Twitter"] else [])) ++
        (if attrContainsSel page "a" "href" "linkedin.com" then ["LinkedIn"] else [])) ++
        (if attrContainsSel page "a" "href" "instagram.com" then ["Instagram"] else [])) ++
        (if attrContainsSel page "a" "href" "youtube.com" then ["YouTube"] else [])).Nodup
  generalize attrContainsSel page "a" "href" "facebook.com" = b1
  generalize attrContainsSel page "a" "href" "twitter.com" = b2
  generalize attrContainsSel page "a" "href" "linkedin.com" = b3
  generalize attrContainsSel page "a" "href" "instagram.com" = b4
  generalize attrContainsSel page "a" "href" "youtube.com" = b5
  cases b1 <;> cases b2 <;> cases b3 <;> cases b4 <;> cases b5 <;> decide

/-- C4 counterexample (negation of the socialMedia conjunct): no page exists on
which `socialMedia` holds a duplicated label. -/
theorem social_dup_impossible :
    ¬ ∃ page : Dom, ¬ ((detectTechnicalDetails page).socialMedia).Nodup := by
  rintro ⟨page, h⟩
  exact h (socialMediaNodupAux page)

/-- Two scripts whose contents both contain `gtag`. -/
def pageDupAnalytics : Dom :=
  .elem "script" [] (.text "gtag(config, G-1);" .nil)
    (.elem "script" [] (.text "gtag(event, x);" .nil) .nil)

/-- An image whose src contains `stripe` plus an element whose class contains
`stripe`. -/
def pageDupPayment : Dom :=
  .elem "img" [("src", "https://cdn.test/stripe-badge.png")] .nil
    (.elem "div" [("class", "stripe-button")] .nil .nil)

/-- C4 (amended): `analytics` and `paymentMethods` accumulate one entry per
matching rule application with no dedup pass, so duplicates occur on concrete
pages; `socialMedia` however can never hold a duplicate. -/
theorem duplicates_analytics_payment :
    (detectTechnicalDetails pageDupAnalytics).analytics =
      ["Google Analytics", "Google Analytics"] ∧
    (detectTechnicalDetails pageDupPayment).paymentMethods = ["Stripe", "Stripe"] ∧
    ∀ page : Dom, ((detectTechnicalDetails page).socialMedia).Nodup :=
  ⟨by decide, by decide, socialMediaNodupAux⟩

/-- A page with a form, an `add-to-cart` class and a checkout.stripe.com anchor,
and no other content. -/
def pageStripeForm : Dom :=
  .elem "html" []
    (.elem "body" []
      (.elem "form" [] .nil
        (.elem "div" [("class", "add-to-cart")] .nil
          (.elem "a" [("href", "https://checkout.stripe.com/pay/cs_test_1")] .nil .nil)))
      .nil)
    .nil

/-- C3 counterexample: a page containing a form, an element with class
`add-to-cart`, and an anchor to checkout.stripe.com, on which nonetheless
`ecommerceIndicators` is empty, `paymentMethods` has no Stripe entry, and the
website type is `unknown` — only `hasForms = true` holds of the claimed
conclusions (the anchor href feeds no payment rule, and indicators come from
body text only). -/
theorem ecommerce_scenario_false :
    hasTagSel pageStripeForm "form" = true ∧
    classContainsSel pageStripeForm "add-to-cart" = true ∧
    attrContainsSel pageStripeForm "a" "href" "checkout.stripe.com" = true ∧
    (detectElements pageStripeForm).hasForms = true ∧
    (collectScrapedData jpNone "" pageStripeForm).ecommerceIndicators = [] ∧
    (detectTechnicalDetails pageStripeForm).paymentMethods = [] ∧
    determineWebsiteType pageStripeForm (detectElements pageStripeForm)
      (detectTechnicalDetails pageStripeForm) "https://shop.example.test/" = .unknown :=
  ⟨by decide, by decide, by decide, by decide, by decide, by decide, by decide⟩

/-- C3 (amended): any page containing a form element yields `hasForms = true`;
but the `add-to-cart` class and the checkout.stripe.com anchor do not by
themselves produce ecommerce indicators, a Stripe payment-method entry, or the
`ecommerce` type — on the witness page those are empty, empty and `unknown`. -/
theorem form_scenario_amended (page : Dom) (h : ∃ e ∈ eltsOf page, e.tag = "form") :
    (detectElements page).hasForms = true ∧
    (collectScrapedData jpNone "" pageStripeForm).ecommerceIndicators = [] ∧
    (detectTechnicalDetails pageStripeForm).paymentMethods = [] ∧
    determineWebsiteType pageStripeForm (detectElements pageStripeForm)
      (detectTechnicalDetails pageStripeForm) "https://shop.example.test/" = .unknown := by
  refine ⟨?_, by decide, by decide, by decide⟩
  obtain ⟨e, he, htag⟩ := h
  show hasTagSel page "form" = true
  rw [hasTagSel, List.any_eq_true]
  exact ⟨e, he, by simp [htag]⟩

/-- Witness for C3 (amended) at the concrete witness page. -/
theorem form_scenario_amended_witness :
    (detectElements pageStripeForm).hasForms = true :=
  (form_scenario_amended pageStripeForm ⟨⟨"form", [], .nil⟩, by decide, rfl⟩).1

/-- First-occurrence field lookup in a JSON object (JS property read). -/
def getF (d : List (String × J)) (k : String) : Option J :=
  (d.find? (·.1 == k)).map (·.2)

/-- JS object assignment: overwrite in place keeping the key's position, or
append a new key. -/
def setF (d : List (String × J)) (k : String) (v : J) : List (String × J) :=
  if d.any (·.1 == k) then d.map (fun p => if p.1 == k then (k, v) else p)
  else d ++ [(k, v)]

/-- JS falsiness of an optional field value (`undefined`, `""`, `0`, `false`,
`null`). -/
def jsFalsyF : Option J → Bool
  | none => true
  | some (J.s str) => str == ""
  | some (J.n num) => num == 0
  | some (J.b val) => !val
  | some J.null => true
  | some (J.arr _) => false
  | some (J.obj _) => false

/-- JS `String.startsWith`. -/
def startsWithJs (s p : String) : Bool := startsL p.data s.data

/-- Continuation of a scheme after its first letter: `(alnum|+|-|.)* :`. -/
def schemeTail : List Char → Bool
  | [] => false
  | ':' :: _ => true
  | c :: rest => (c.isAlphanum || c == '+' || c == '-' || c == '.') && schemeTail rest

/-- Whether a string begins with a URL scheme (`alpha (alnum|+|-|.)* :`) — the
spec's "already has a scheme". -/
def hasScheme (s : String) : Bool :=
  match s.data with
  | [] => false
  | c :: rest => c.isAlpha && schemeTail rest

/-- Split a character list at the first `://` marker. -/
def splitMarker : List Char → Option (List Char × List Char)
  | [] => none
  | ':' :: '/' :: '/' :: rest => some ([], rest)
  | c :: rest => (splitMarker rest).map (fun p => (c :: p.1, p.2))

/-- Split an absolute URL into `scheme://host` and `/path` (query, fragment and
dot-segment handling omitted — not exercised by this repository's inputs). -/
def splitOriginPath (base : String) : Option (String × String) :=
  match splitMarker base.data with
  | none => none
  | some (sch, rest) =>
    if sch.isEmpty then none
    else match splitChar '/' rest with
      | [] => none
      | host :: pathSegs =>
        if host.isEmpty then none
        else some (String.mk (sch ++ ':' :: '/' :: '/' :: host),
          if pathSegs.isEmpty then ""
          else String.mk ('/' :: List.intercalate ['/'] pathSegs))

/-- The path up to and including its last `/` (the directory part). -/
def urlDirOf (path : String) : String :=
  match splitChar '/' path.data with
  | [] => "/"
  | segs => if segs.length ≤ 1 then "/"
    else String.mk (List.intercalate ['/'] segs.dropLast ++ ['/'])

/-- Model of WHATWG `new URL(src, base).href` restricted to the fragment this
repository exercises: a `src` that already carries a scheme is returned as
written (no normalization); protocol-relative, path-absolute and path-relative
references resolve against the base origin/directory without dot-segment, query
or fragment processing; `none` models the constructor throwing on an
unparseable base. -/
def urlResolve (src base : String) : Option String :=
  if hasScheme src then some src
  else match splitOriginPath base with
    | none => none
    | some (origin, path) =>
      if startsWithJs src "//" then
        match splitMarker origin.data with
        | some (sch, _) => some (String.mk (sch ++ ':' :: src.data))
        | none => none
      else if startsWithJs src "/" then some (origin ++ src)
      else some (origin ++ urlDirOf path ++ src)

/-- The source's image URL computation:
`img.src.startsWith('http') ? img.src : new URL(img.src, analysisResult.url).href`. -/
def imageUrlOf (src base : String) : Option String :=
  if startsWithJs src "http" then some src else urlResolve src base

/-- Modelled from the spec's words, for comparison with `imageUrlOf`: "if `src`
already has a scheme, use as-is; otherwise resolve relative to `result.url`". -/
def specImageUrl (src base : String) : Option String :=
  if hasScheme src then some src else urlResolve src base

/-- One image entry as consumed by the synthesizer. -/
structure ImageItem where
  src : String
  alt : Option String

/-- The fields of an `AnalysisResult` the synthesizer reads. -/
structure SynthInput where
  title : String
  url : String
  description : Option String
  images : List ImageItem

/-- One nested-schema selection entry (`{type, context, properties}`). -/
structure NestedSchema where
  type : String
  context : String
  properties : List (String × J)

/-- `img.alt || analysisResult.title`. -/
def altOrTitle (alt : Option String) (title : String) : String :=
  match alt with
  | some a => if a == "" then title else a
  | none => title

/-- One synthesized ImageObject (`none` models `new URL` throwing). -/
def imageObjOf (base title : String) (img : ImageItem) : Option J :=
  (imageUrlOf img.src base).map (fun u =>
    J.obj [("@type", J.s "ImageObject"), ("url", J.s u),
      ("alt", J.s (altOrTitle img.alt title))])

/-- The `.map` over filtered images, failing as a whole if any URL fails. -/
def imagesArr (base title : String) : List ImageItem → Option (List J)
  | [] => some []
  | img :: rest =>
    match imageObjOf base title img with
    | none => none
    | some o => (imagesArr base title rest).map (fun r => o :: r)

/-- Singleton collapse of one value: a one-element sequence becomes its element. -/
def collapseVal : J → J
  | J.arr [x] => x
  | v => v

/-- The final pass: collapse every top-level field of the document. -/
def collapseDoc (d : List (String × J)) : List (String × J) :=
  d.map (fun p => (p.1, collapseVal p.2))

/-- "Ensure URLs are absolute": every string property value beginning with `/`
is resolved against the result URL; a failing resolution aborts the synthesis. -/
def absolutizeProps (base : String) : List (String × J) → Option (List (String × J))
  | [] => some []
  | (k, J.s str) :: rest =>
    if startsWithJs str "/" then
      match urlResolve str base with
      | none => none
      | some u => (absolutizeProps base rest).map (fun r => (k, J.s u) :: r)
    else (absolutizeProps base rest).map (fun r => (k, J.s str) :: r)
  | (k, v) :: rest => (absolutizeProps base rest).map (fun r => (k, v) :: r)

/-- One `nestedSchemas.forEach` iteration: initialize the context field to an
empty sequence when falsy, build `{@type: type, ...properties}` with
absolutization, and push it onto the context field (`none` also models `.push`
throwing on a truthy non-sequence context value). -/
def addNested (base : String) (d : List (String × J)) (ns : NestedSchema) :
    Option (List (String × J)) :=
  let d1 := if jsFalsyF (getF d ns.context) then setF d ns.context (J.arr []) else d
  let nsFields := ns.properties.foldl (fun fs kv => setF fs kv.1 kv.2) [("@type", J.s ns.type)]
  match absolutizeProps base nsFields with
  | none => none
  | some nsFields' =>
    match getF d1 ns.context with
    | some (J.arr xs) => some (setF d1 ns.context (J.arr (xs ++ [J.obj nsFields'])))
    | _ => none

/-- The full `nestedSchemas.forEach` loop. -/
def addNestedAll (base : String) (d : List (String × J)) :
    List NestedSchema → Option (List (String × J))
  | [] => some d
  | ns :: rest =>
    match addNested base d ns with
    | none => none
    | some d' => addNestedAll base d' rest

/-- Embedding of `generateSchemaMarkup` (src/index.ts): build the base document,
add description and images, merge custom properties, append nested schemas
(absolutizing root-relative string values), then collapse singleton sequences.
`none` models the one failure mode: `new URL` throwing during absolutization. -/
def generateSchemaMarkup (r : SynthInput) (mainSchema : String)
    (nestedSchemas : List NestedSchema) (customProperties : List (String × J)) :
    Option (List (String × J)) :=
  let schema : List (String × J) :=
    [("@context", J.s "https://schema.org"), ("@type", J.s mainSchema),
     ("name", J.s r.title), ("url", J.s r.url)]
  let schema := match r.description with
    | some dsc => if dsc == "" then schema else setF schema "description" (J.s dsc)
    | none => schema
  match (if decide (0 < r.images.length) then
          (imagesArr r.url r.title (r.images.filter (fun img => img.src != ""))).map
            (fun imgs => setF schema "image" (J.arr imgs))
         else some schema) with
  | none => none
  | some schema1 =>
    let schema2 := customProperties.foldl (fun d kv => setF d kv.1 kv.2) schema1
    match addNestedAll r.url schema2 nestedSchemas with
    | none => none
    | some schema3 => some (collapseDoc schema3)

/-- The collapse pass acts fieldwise: looking up any key in the collapsed
document gives the collapsed value of that key. -/
theorem getF_collapseDoc (d : List (String × J)) (k : String) :
    getF (collapseDoc d) k = (getF d k).map collapseVal := by
  induction d with
  | nil => rfl
  | cons p rest ih =>
    cases hp : p.1 == k
    · simpa [collapseDoc, getF, List.find?_cons, hp] using ih
    · simp [collapseDoc, getF, List.find?_cons, hp]

/-- C5: every successful synthesis output is the singleton-collapse pass applied
to the built document — a pass that fieldwise replaces every one-element
sequence by its element; concretely, one image yields `image` as a single
object, two images keep a two-element sequence, and one nested schema collapses
to a single object under its context key. -/
theorem singleton_collapse :
    (∀ (d : List (String × J)) (k : String),
      getF (collapseDoc d) k = (getF d k).map collapseVal) ∧
    (∀ (r : SynthInput) (m : String) (ns : List NestedSchema)
       (cp : List (String × J)) (d : List (String × J)),
      generateSchemaMarkup r m ns cp = some d → ∃ d0, d = collapseDoc d0) ∧
    generateSchemaMarkup ⟨"T", "https://x.test/", none, [⟨"https://x.test/a.png", none⟩]⟩
      "Thing" [] [] =
      some [("@context", J.s "https://schema.org"), ("@type", J.s "Thing"),
        ("name", J.s "T"), ("url", J.s "https://x.test/"),
        ("image", J.obj [("@type", J.s "ImageObject"), ("url", J.s "https://x.test/a.png"),
          ("alt", J.s "T")])] ∧
    generateSchemaMarkup ⟨"T", "https://x.test/", none,
      [⟨"https://x.test/a.png", none⟩, ⟨"https://x.test/b.png", none⟩]⟩ "Thing" [] [] =
      some [("@context", J.s "https://schema.org"), ("@type", J.s "Thing"),
        ("name", J.s "T"), ("url", J.s "https://x.test/"),
        ("image", J.arr
          [J.obj [("@type", J.s "ImageObject"), ("url", J.s "https://x.test/a.png"),
            ("alt", J.s "T")],
           J.obj [("@type", J.s "ImageObject"), ("url", J.s "https://x.test/b.png"),
            ("alt", J.s "T")]])] ∧
    generateSchemaMarkup ⟨"T", "https://x.test/", none, []⟩ "Product"
      [⟨"Offer", "offers", [("price", J.s "10")]⟩] [] =
      some [("@context", J.s "https://schema.org"), ("@type", J.s "Product"),
        ("name", J.s "T"), ("url", J.s "https://x.test/"),
        ("offers", J.obj [("@type", J.s "Offer"), ("price", J.s "10")])] := by
  refine ⟨getF_collapseDoc, ?_, rfl, rfl, rfl⟩
  intro r m ns cp d h
  rw [generateSchemaMarkup] at h
  split at h
  · exact Option.noConfusion h
  · dsimp only at h
    split at h
    · exact Option.noConfusion h
    · exact ⟨_, (Option.some_inj.mp h).symm⟩

/-- Witness for C5's quantified implication at the nested-schema example. -/
theorem singleton_collapse_witness :
    ∃ d0, [("@context", J.s "https://schema.org"), ("@type", J.s "Product"),
      ("name", J.s "T"), ("url", J.s "https://x.test/"),
      ("offers", J.obj [("@type", J.s "Offer"), ("price", J.s "10")])] = collapseDoc d0 :=
  singleton_collapse.2.1 ⟨"T", "https://x.test/", none, []⟩ "Product"
    [⟨"Offer", "offers", [("price", J.s "10")]⟩] [] _ rfl

/-- C6 counterexample: with `src = "httpfoo.png"` — which has no scheme — the
code keeps the src as-is because it starts with the four characters `http`,
while the claim's scheme-based rule resolves it against the page URL to
`https://x.test/httpfoo.png`; the two disagree. -/
theorem image_url_scheme_false :
    hasScheme "httpfoo.png" = false ∧
    specImageUrl "httpfoo.png" "https://x.test/page" = some "https://x.test/httpfoo.png" ∧
    generateSchemaMarkup ⟨"T", "https://x.test/page", none, [⟨"httpfoo.png", none⟩]⟩
      "Thing" [] [] =
      some [("@context", J.s "https://schema.org"), ("@type", J.s "Thing"),
        ("name", J.s "T"), ("url", J.s "https://x.test/page"),
        ("image", J.obj [("@type", J.s "ImageObject"), ("url", J.s "httpfoo.png"),
          ("alt", J.s "T")])] ∧
    ("httpfoo.png" : String) ≠ "https://x.test/httpfoo.png" :=
  ⟨rfl, rfl, rfl, by decide⟩

/-- C6 (amended): for every image entry with non-empty src the synthesized
ImageObject url is the src itself when the src starts with `"http"`, and
otherwise the src resolved against `result.url`; in particular src `/img.png`
against `https://x.test/page` yields `https://x.test/img.png`. -/
theorem image_url_http_rule :
    (∀ (src : String) (alt : Option String) (m u : String),
      src ≠ "" → imageUrlOf src "https://x.test/page" = some u →
      generateSchemaMarkup ⟨"T", "https://x.test/page", none, [⟨src, alt⟩]⟩ m [] [] =
        some [("@context", J.s "https://schema.org"), ("@type", J.s m),
          ("name", J.s "T"), ("url", J.s "https://x.test/page"),
          ("image", J.obj [("@type", J.s "ImageObject"), ("url", J.s u),
            ("alt", J.s (altOrTitle alt "T"))])]) ∧
    imageUrlOf "/img.png" "https://x.test/page" = some "https://x.test/img.png" ∧
    generateSchemaMarkup ⟨"T", "https://x.test/page", none, [⟨"/img.png", none⟩]⟩
      "Thing" [] [] =
      some [("@context", J.s "https://schema.org"), ("@type", J.s "Thing"),
        ("name", J.s "T"), ("url", J.s "https://x.test/page"),
        ("image", J.obj [("@type", J.s "ImageObject"), ("url", J.s "https://x.test/img.png"),
          ("alt", J.s "T")])] := by
  refine ⟨?_, rfl, rfl⟩
  intro src alt m u hs hu
  have hsb : (src != "") = true := by simpa using hs
  simp [generateSchemaMarkup, imagesArr, imageObjOf, hsb, hu, setF, addNestedAll,
    collapseDoc, collapseVal]

/-- Witness for C6 (amended) at a concrete root-relative src. -/
theorem image_url_http_rule_witness :
    generateSchemaMarkup ⟨"T", "https://x.test/page", none, [⟨"/w.png", none⟩]⟩
      "Thing" [] [] =
      some [("@context", J.s "https://schema.org"), ("@type", J.s "Thing"),
        ("name", J.s "T"), ("url", J.s "https://x.test/page"),
        ("image", J.obj [("@type", J.s "ImageObject"), ("url", J.s "https://x.test/w.png"),
          ("alt", J.s "T")])] :=
  image_url_http_rule.1 "/w.png" none "Thing" "https://x.test/w.png"
    (by decide) (by decide)

/-!
## Heap-level model of the synthesizer (for the frame property)

`generateSchemaMarkup` mutates JS objects through references.  To state that it
does not mutate its inputs, we re-embed it over an explicit store of heap cells,
each tagged with the input it belongs to: the `AnalysisResult` graph
(`resultR`), the nested-schema entries (`nestedR`), the custom-properties
object (`customR`), or cells the synthesizer allocates itself (`freshR`).
-/

/-- Region tag of a heap cell. -/
inductive Region where
  | resultR : Region
  | nestedR : Region
  | customR : Region
  | freshR : Region
deriving DecidableEq

/-- A JS runtime value: a primitive or a reference to a heap cell. -/
inductive HVal where
  | str (s : String) : HVal
  | num (n : Int) : HVal
  | bool (b : Bool) : HVal
  | null : HVal
  | undefinedV : HVal
  | ref (a : Nat) : HVal
deriving DecidableEq

/-- A heap object: a plain object (ordered fields) or an array. -/
inductive HObj where
  | obj (fields : List (String × HVal)) : HObj
  | arr (elems : List HVal) : HObj
deriving DecidableEq

/-- The store: allocated cells with region tags, plus the next fresh address. -/
structure Store where
  cells : List (Nat × Region × HObj)
  next : Nat
deriving DecidableEq

/-- Cell lookup. -/
def Store.find (s : Store) (a : Nat) : Option (Region × HObj) :=
  (s.cells.find? (fun c => c.1 == a)).map (·.2)

/-- Allocate a fresh cell in region `r`; returns the new store and address. -/
def Store.alloc (s : Store) (r : Region) (o : HObj) : Store × Nat :=
  ({ cells := s.cells ++ [(s.next, r, o)], next := s.next + 1 }, s.next)

/-- Apply `f` to the object stored at `a` (no-op when `a` is unallocated). -/
def Store.mutate (s : Store) (a : Nat) (f : HObj → HObj) : Store :=
  { s with cells := s.cells.map (fun c => if c.1 = a then (c.1, c.2.1, f c.2.2) else c) }

/-- Field upsert on object fields (JS property-write semantics). -/
def upsertH (fs : List (String × HVal)) (k : String) (v : HVal) : List (String × HVal) :=
  if fs.any (·.1 == k) then fs.map (fun p => if p.1 == k then (k, v) else p)
  else fs ++ [(k, v)]

/-- JS property write `o[k] = v` (array cells unaffected — never targeted). -/
def Store.setProp (s : Store) (a : Nat) (k : String) (v : HVal) : Store :=
  s.mutate a (fun o => match o with
    | .obj fs => .obj (upsertH fs k v)
    | o => o)

/-- JS `arr.push(v)`. -/
def Store.pushElem (s : Store) (a : Nat) (v : HVal) : Store :=
  s.mutate a (fun o => match o with
    | .arr xs => .arr (xs ++ [v])
    | o => o)

/-- JS property read `o[k]` (`undefined` on missing keys or non-objects). -/
def Store.getProp (s : Store) (a : Nat) (k : String) : HVal :=
  match s.find a with
  | some (_, .obj fs) => ((fs.find? (·.1 == k)).map (·.2)).getD .undefinedV
  | _ => .undefinedV

/-- Property read through a value. -/
def getPropV (s : Store) (v : HVal) (k : String) : HVal :=
  match v with
  | .ref a => s.getProp a k
  | _ => .undefinedV

/-- JS truthiness of a runtime value. -/
def jsTruthyH : HVal → Bool
  | .str s => s != ""
  | .num n => n != 0
  | .bool b => b
  | .null => false
  | .undefinedV => false
  | .ref _ => true

/-- Whether a value is a reference. -/
def HVal.isRef : HVal → Bool
  | .ref _ => true
  | _ => false

/-- String content of a value (the exercised inputs are strings, as the source's
zod validation guarantees). -/
def hvalToStr : HVal → String
  | .str s => s
  | _ => ""

/-- Dereference an array value to its elements (ill-shaped values read as
empty; the source's zod validation guarantees the exercised shapes). -/
def derefArr (s : Store) (v : HVal) : List HVal :=
  match v with
  | .ref a =>
    match s.find a with
    | some (_, .arr xs) => xs
    | _ => []
  | _ => []

/-- Object fields at an address. -/
def objFieldsH (s : Store) (a : Nat) : List (String × HVal) :=
  match s.find a with
  | some (_, .obj fs) => fs
  | _ => []

/-- One image mapping step of the heap-level synthesizer: computes the URL (as
`imageUrlOf`), defaults the alt text, allocates the fresh ImageObject. -/
def imageElemH (s : Store) (resultUrl : String) (titleV : HVal) (v : HVal) :
    Option (Store × HVal) :=
  match imageUrlOf (hvalToStr (getPropV s v "src")) resultUrl with
  | none => none
  | some u =>
    let altV := getPropV s v "alt"
    let p := s.alloc .freshR (.obj [("@type", .str "ImageObject"), ("url", .str u),
      ("alt", if jsTruthyH altV then altV else titleV)])
    some (p.1, .ref p.2)

/-- The images `.map` at heap level. -/
def mapImagesH (resultUrl : String) (titleV : HVal) :
    Store → List HVal → Option (Store × List HVal)
  | s, [] => some (s, [])
  | s, v :: rest =>
    match imageElemH s resultUrl titleV v with
    | none => none
    | some (s', hv) =>
      match mapImagesH resultUrl titleV s' rest with
      | none => none
      | some (s'', hvs) => some (s'', hv :: hvs)

/-- Absolutize the copied nested-schema fields (heap-value version). -/
def absolutizeFieldsH (base : String) : List (String × HVal) → Option (List (String × HVal))
  | [] => some []
  | (k, .str str) :: rest =>
    if startsWithJs str "/" then
      match urlResolve str base with
      | none => none
      | some u => (absolutizeFieldsH base rest).map (fun r => (k, .str u) :: r)
    else (absolutizeFieldsH base rest).map (fun r => (k, .str str) :: r)
  | (k, v) :: rest => (absolutizeFieldsH base rest).map (fun r => (k, v) :: r)

/-- One heap-level `nestedSchemas.forEach` iteration: initialize the context
field to a fresh empty array when falsy, build the fresh `{@type, ...properties}`
object (shallow copy), absolutize its root-relative string fields, and push its
reference onto the context array (`none` models `.push` on a non-array, and a
`new URL` throw during absolutization). -/
def addNestedStepH (resultUrl : String) (schemaA : Nat) (s : Store) (nv : HVal) :
    Option Store :=
  let ctx := hvalToStr (getPropV s nv "context")
  let s1 := if jsTruthyH (s.getProp schemaA ctx) then s
    else
      let p := s.alloc .freshR (.arr [])
      (p.1).setProp schemaA ctx (.ref p.2)
  let propsFs :=
    match getPropV s1 nv "properties" with
    | .ref pa => objFieldsH s1 pa
    | _ => []
  match absolutizeFieldsH resultUrl
      (propsFs.foldl (fun fs kv => upsertH fs kv.1 kv.2)
        [("@type", getPropV s1 nv "type")]) with
  | none => none
  | some nsFields =>
    let p2 := s1.alloc .freshR (.obj nsFields)
    match (p2.1).getProp schemaA ctx with
    | .ref ta =>
      match (p2.1).find ta with
      | some (_, .arr _) => some ((p2.1).pushElem ta (.ref p2.2))
      | _ => none
    | _ => none

/-- The heap-level `nestedSchemas.forEach` loop. -/
def addNestedH (resultUrl : String) (schemaA : Nat) :
    Store → List HVal → Option Store
  | s, [] => some s
  | s, nv :: rest =>
    match addNestedStepH resultUrl schemaA s nv with
    | none => none
    | some s1 => addNestedH resultUrl schemaA s1 rest

/-- The final singleton-collapse over the schema's own fields: every field whose
value references a one-element array is overwritten with that element. -/
def collapseH (s : Store) (schemaA : Nat) : Store :=
  match s.find schemaA with
  | some (_, .obj fs) =>
    fs.foldl (fun s' kv =>
      match kv.2 with
      | .ref a =>
        match s'.find a with
        | some (_, .arr [x]) => s'.setProp schemaA kv.1 x
        | _ => s'
      | _ => s') s
  | _ => s

/-- Heap-level embedding of `generateSchemaMarkup`, with explicit store passing:
the caller's `analysisResult` graph lives at `resultA`, the nested-schema entry
references are `nestedVs`, the custom-properties object lives at `customA`.
`none` models the one failure mode (`new URL` throwing); on success the result
is the final heap and the address of the built document. -/
def generateSchemaMarkupH (s0 : Store) (resultA : Nat) (mainSchema : String)
    (nestedVs : List HVal) (customA : Nat) : Option (Store × Nat) :=
  let titleV := s0.getProp resultA "title"
  let urlV := s0.getProp resultA "url"
  let resultUrl := hvalToStr urlV
  let p := s0.alloc .freshR (.obj [("@context", .str "https://schema.org"),
    ("@type", .str mainSchema), ("name", titleV), ("url", urlV)])
  let s1 := p.1
  let schemaA := p.2
  let descV := s1.getProp resultA "description"
  let s2 := if jsTruthyH descV then s1.setProp schemaA "description" descV else s1
  let imgs := derefArr s2 (getPropV s2 (s2.getProp resultA "scrapedData") "images")
  match (if decide (0 < imgs.length) then
      match mapImagesH resultUrl titleV s2
          (imgs.filter (fun v => jsTruthyH (getPropV s2 v "src"))) with
      | none => none
      | some (s3, hvs) =>
        let q := s3.alloc .freshR (.arr hvs)
        some ((q.1).setProp schemaA "image" (.ref q.2))
    else some s2) with
  | none => none
  | some s5 =>
    let s6 := (objFieldsH s5 customA).foldl (fun s kv => s.setProp schemaA kv.1 kv.2) s5
    match addNestedH resultUrl schemaA s6 nestedVs with
    | none => none
    | some s7 => some (collapseH s7 schemaA, schemaA)

/-- Protected-cell preservation: cells of the `AnalysisResult` graph and of the
nested-schema entries keep their exact region and contents. -/
def Pres (s s' : Store) : Prop :=
  ∀ a r o, s.find a = some (r, o) → (r = .resultR ∨ r = .nestedR) →
    s'.find a = some (r, o)

theorem presRefl (s : Store) : Pres s s := fun _ _ _ h _ => h

theorem presTrans {s1 s2 s3 : Store} (h1 : Pres s1 s2) (h2 : Pres s2 s3) : Pres s1 s3 :=
  fun a r o h hr => h2 a r o (h1 a r o h hr) hr

/-- Already-present cells read the same after an allocation. -/
theorem find_alloc {s : Store} {b : Nat} {x : Region × HObj} (r : Region) (o : HObj)
    (h : s.find b = some x) : ((s.alloc r o).1).find b = some x := by
  unfold Store.find at h ⊢
  unfold Store.alloc
  rcases Option.map_eq_some'.mp h with ⟨c, hc, hcx⟩
  simp [List.find?_append, hc, hcx]

/-- Lookup after mutation, at the list level. -/
theorem find?_mutate_list (a : Nat) (f : HObj → HObj) (b : Nat) :
    ∀ (l : List (Nat × Region × HObj)),
    ((l.map (fun c => if c.1 = a then (c.1, c.2.1, f c.2.2) else c)).find?
        (fun c => c.1 == b)) =
      if b = a then (l.find? (fun c => c.1 == b)).map (fun c => (c.1, c.2.1, f c.2.2))
      else l.find? (fun c => c.1 == b)
  | [] => by simp
  | c :: cs => by
    have ih := find?_mutate_list a f b cs
    by_cases hba : b = a
    · subst hba
      by_cases hcb : c.1 = b
      · simp [List.find?_cons, hcb]
      · simp [List.find?_cons, hcb, ih]
    · by_cases hcb : c.1 = b
      · have hca : ¬ c.1 = a := fun h => hba (hcb ▸ h)
        simp [List.find?_cons, hcb, hca, hba]
      · have hab : (a == b) = false := by
          simp only [beq_eq_false_iff_ne]
          exact fun h => hba h.symm
        by_cases hca : c.1 = a
        · simp [List.find?_cons, hca, hcb, hba, hab, ih]
        · simp [List.find?_cons, hca, hcb, hba, hab, ih]

/-- Lookup after mutation. -/
theorem find_mutate {s : Store} {a : Nat} {f : HObj → HObj} (b : Nat) :
    (s.mutate a f).find b =
      if b = a then (s.find b).map (fun ro => (ro.1, f ro.2)) else s.find b := by
  unfold Store.find Store.mutate
  rw [find?_mutate_list]
  split
  · cases s.cells.find? (fun c => c.1 == b) <;> rfl
  · rfl

/-- Lookup elsewhere is unchanged by mutation. -/
theorem find_mutate_ne {s : Store} {a : Nat} {f : HObj → HObj} {b : Nat} (h : b ≠ a) :
    (s.mutate a f).find b = s.find b := by
  rw [find_mutate, if_neg h]

/-- Well-formed address range: every allocated address is below `next`. -/
def WFr (s : Store) : Prop := ∀ c ∈ s.cells, c.1 < s.next

theorem wfr_mutate {s : Store} (a : Nat) (f : HObj → HObj) (h : WFr s) :
    WFr (s.mutate a f) := by
  intro c hc
  unfold Store.mutate at hc
  rcases List.mem_map.mp hc with ⟨c0, hc0, rfl⟩
  have := h c0 hc0
  split <;> simpa using this

theorem wfr_alloc {s : Store} (r : Region) (o : HObj) (h : WFr s) :
    WFr ((s.alloc r o).1) := by
  intro c hc
  unfold Store.alloc at hc
  rcases List.mem_append.mp hc with hc | hc
  · exact Nat.lt_succ_of_lt (h c hc)
  · rcases List.mem_singleton.mp hc with rfl
    exact Nat.lt_succ_self _

/-- A found cell has its address below `next`. -/
theorem find_lt_next {s : Store} {b : Nat} {x : Region × HObj} (hw : WFr s)
    (h : s.find b = some x) : b < s.next := by
  unfold Store.find at h
  rcases Option.map_eq_some'.mp h with ⟨c, hc, _⟩
  have hm := List.mem_of_find?_eq_some hc
  have hb : c.1 = b := by simpa using List.find?_some hc
  exact hb ▸ hw c hm

/-- The freshly allocated cell reads back (needs address-range well-formedness). -/
theorem find_alloc_self {s : Store} (r : Region) (o : HObj) (hw : WFr s) :
    ((s.alloc r o).1).find s.next = some (r, o) := by
  unfold Store.find Store.alloc
  have hnone : s.cells.find? (fun c => c.1 == s.next) = none := by
    rw [List.find?_eq_none]
    intro c hc
    simpa using Nat.ne_of_lt (hw c hc)
  simp [List.find?_append, hnone]

/-- Region of an address. -/
def regionOf (s : Store) (a : Nat) : Option Region := (s.find a).map (·.1)

/-- Regions of present cells never change across the synthesizer's operations. -/
def RegStable (s s' : Store) : Prop :=
  ∀ a r, regionOf s a = some r → regionOf s' a = some r

theorem regStableRefl (s : Store) : RegStable s s := fun _ _ h => h

theorem regStableTrans {s1 s2 s3 : Store} (h1 : RegStable s1 s2) (h2 : RegStable s2 s3) :
    RegStable s1 s3 := fun a r h => h2 a r (h1 a r h)

theorem regStable_alloc {s : Store} (r : Region) (o : HObj) :
    RegStable s ((s.alloc r o).1) := by
  intro b rb hb
  unfold regionOf at hb ⊢
  rcases Option.map_eq_some'.mp hb with ⟨ro, hro, hx⟩
  rw [find_alloc r o hro]
  simpa using hx

theorem regStable_mutate {s : Store} (a : Nat) (f : HObj → HObj) :
    RegStable s (s.mutate a f) := by
  intro b rb hb
  unfold regionOf at hb ⊢
  rcases Option.map_eq_some'.mp hb with ⟨ro, hro, hx⟩
  rw [find_mutate]
  split
  · simp [hro, hx]
  · simp [hro, hx]

/-- A value is write-safe when any reference in it points at a fresh or custom
cell (so writing through it cannot touch a protected cell). -/
def safeValB (s : Store) : HVal → Bool
  | .ref a =>
    match regionOf s a with
    | some .freshR => true
    | some .customR => true
    | _ => false
  | _ => true

theorem safeValB_of_not_ref {s : Store} {v : HVal} (h : v.isRef = false) :
    safeValB s v = true := by
  cases v <;> simp [safeValB] <;> simp [HVal.isRef] at h

theorem safeValB_stable {s s' : Store} (hs : RegStable s s') {v : HVal}
    (h : safeValB s v = true) : safeValB s' v = true := by
  cases v with
  | ref a =>
    simp only [safeValB] at h ⊢
    cases hr : regionOf s a with
    | none => rw [hr] at h; simp at h
    | some r =>
      rw [hs a r hr]
      rw [hr] at h
      cases r <;> simp_all
  | str v => rfl
  | num v => rfl
  | bool v => rfl
  | null => rfl
  | undefinedV => rfl

/-- Mutation at an unprotected (or absent) address preserves protected cells. -/
theorem pres_mutate {s : Store} {a : Nat} (f : HObj → HObj)
    (h : ∀ r o, s.find a = some (r, o) → r = .freshR ∨ r = .customR) :
    Pres s (s.mutate a f) := by
  intro b r o hb hr
  rw [find_mutate]
  split
  · next hba =>
    subst hba
    rcases h r o hb with h' | h' <;> rcases hr with hr | hr <;>
      first
        | exact absurd (hr ▸ h') (by simp)
        | exact absurd (hr ▸ h') (by simp)
  · exact hb

theorem pres_alloc {s : Store} (r : Region) (o : HObj) : Pres s ((s.alloc r o).1) :=
  fun _ _ _ hb _ => find_alloc r o hb

theorem pres_setProp {s : Store} {a : Nat} (k : String) (v : HVal)
    (h : ∀ r o, s.find a = some (r, o) → r = .freshR ∨ r = .customR) :
    Pres s (s.setProp a k v) := pres_mutate _ h

theorem pres_pushElem {s : Store} {a : Nat} (v : HVal)
    (h : ∀ r o, s.find a = some (r, o) → r = .freshR ∨ r = .customR) :
    Pres s (s.pushElem a v) := pres_mutate _ h

/-- Every entry of an upsert result is an old entry or the written pair. -/
theorem upsertH_mem {fs : List (String × HVal)} {k : String} {v : HVal} {kv : String × HVal}
    (h : kv ∈ upsertH fs k v) : kv ∈ fs ∨ kv = (k, v) := by
  unfold upsertH at h
  split at h
  · rcases List.mem_map.mp h with ⟨p, hp, hpe⟩
    by_cases hpk : p.1 == k
    · rw [if_pos hpk] at hpe
      exact Or.inr hpe.symm
    · rw [if_neg hpk] at hpe
      exact Or.inl (hpe ▸ hp)
  · rcases List.mem_append.mp h with h | h
    · exact Or.inl h
    · exact Or.inr (List.mem_singleton.mp h)

/-- Invariant carried through the synthesis: the schema cell is a fresh object
whose field values are all write-safe. -/
def SchemaInv (s : Store) (schemaA : Nat) : Prop :=
  ∃ fs, s.find schemaA = some (.freshR, .obj fs) ∧ ∀ kv ∈ fs, safeValB s kv.2 = true

/-- Reading any schema field yields a write-safe value. -/
theorem getProp_safe {s : Store} {schemaA : Nat} (hi : SchemaInv s schemaA) (k : String) :
    safeValB s (s.getProp schemaA k) = true := by
  rcases hi with ⟨fs, hfind, hsafe⟩
  unfold Store.getProp
  rw [hfind]
  dsimp only
  cases hf : fs.find? (·.1 == k) with
  | none => simp [hf, safeValB]
  | some kv =>
    simp only [hf, Option.map_some', Option.getD_some]
    exact hsafe kv (List.mem_of_find?_eq_some hf)

/-- The schema cell's region admits writes. -/
theorem schemaInv_region {s : Store} {schemaA : Nat} (hi : SchemaInv s schemaA) :
    ∀ r o, s.find schemaA = some (r, o) → r = .freshR ∨ r = .customR := by
  rcases hi with ⟨fs, hfind, _⟩
  intro r o h
  rw [hfind] at h
  cases h
  exact Or.inl rfl

/-- SchemaInv survives an allocation. -/
theorem schemaInv_alloc {s : Store} {schemaA : Nat} (r : Region) (o : HObj)
    (hi : SchemaInv s schemaA) : SchemaInv ((s.alloc r o).1) schemaA := by
  rcases hi with ⟨fs, hfind, hsafe⟩
  exact ⟨fs, find_alloc r o hfind,
    fun kv hkv => safeValB_stable (regStable_alloc r o) (hsafe kv hkv)⟩

/-- SchemaInv after writing a write-safe value to a schema field. -/
theorem schemaInv_setProp {s : Store} {schemaA : Nat} {k : String} {v : HVal}
    (hi : SchemaInv s schemaA) (hv : safeValB s v = true) :
    SchemaInv (s.setProp schemaA k v) schemaA := by
  rcases hi with ⟨fs, hfind, hsafe⟩
  refine ⟨upsertH fs k v, ?_, ?_⟩
  · unfold Store.setProp
    rw [find_mutate, if_pos rfl, hfind]
    rfl
  · intro kv hkv
    have hst : RegStable s (s.setProp schemaA k v) := regStable_mutate _ _
    rcases upsertH_mem hkv with h | h
    · exact safeValB_stable hst (hsafe kv h)
    · rw [h]
      exact safeValB_stable hst hv

/-- SchemaInv survives a push into a (different or same) cell: pushes never
change the schema object's own fields. -/
theorem schemaInv_pushElem {s : Store} {schemaA : Nat} {a : Nat} {v : HVal}
    (hi : SchemaInv s schemaA) : SchemaInv (s.pushElem a v) schemaA := by
  rcases hi with ⟨fs, hfind, hsafe⟩
  refine ⟨fs, ?_, fun kv hkv => safeValB_stable (regStable_mutate _ _) (hsafe kv hkv)⟩
  unfold Store.pushElem
  rw [find_mutate]
  split
  · rw [hfind]
    rfl
  · exact hfind

/-- A write-safe reference's target cell is in a writable region. -/
theorem region_of_safe_ref {s : Store} {ta : Nat} (h : safeValB s (.ref ta) = true) :
    ∀ r o, s.find ta = some (r, o) → r = .freshR ∨ r = .customR := by
  intro r o hf
  have hreg : regionOf s ta = some r := by simp [regionOf, hf]
  simp only [safeValB] at h
  rw [hreg] at h
  cases r <;> simp_all

/-- Lookup below the fresh range is unchanged by an allocation (also for absent
addresses). -/
theorem find_alloc_lt {s : Store} {b : Nat} (r : Region) (o : HObj) (hb : b < s.next) :
    ((s.alloc r o).1).find b = s.find b := by
  unfold Store.find Store.alloc
  rw [List.find?_append]
  have hone : [(s.next, r, o)].find? (fun c => c.1 == b) = none := by
    have hne : (s.next == b) = false := by simpa using Nat.ne_of_gt hb
    simp [List.find?, hne]
  cases hf : s.cells.find? (fun c => c.1 == b) <;> simp [hf, hone]

/-- Property reads agree on cells that read equal. -/
theorem getProp_congr {s s' : Store} {a : Nat} (h : s'.find a = s.find a) (k : String) :
    s'.getProp a k = s.getProp a k := by
  unfold Store.getProp
  rw [h]

/-- Full lookup preservation implies region stability. -/
theorem regStable_of_findPres {s s' : Store}
    (h : ∀ b x, s.find b = some x → s'.find b = some x) : RegStable s s' := by
  intro a r ha
  rcases Option.map_eq_some'.mp ha with ⟨ro, hro, hx⟩
  simp [regionOf, h a ro hro, hx]

/-- The schema cell is a fresh object (region-only part of `SchemaInv`). -/
def SchemaRegion (s : Store) (schemaA : Nat) : Prop :=
  ∃ fs, s.find schemaA = some (.freshR, .obj fs)

/-- `mapImagesH` only allocates: the range stays well-formed and every existing
cell reads unchanged. -/
theorem mapImagesH_frame (resultUrl : String) (titleV : HVal) :
    ∀ (vs : List HVal) (s s' : Store) (hvs : List HVal),
      mapImagesH resultUrl titleV s vs = some (s', hvs) → WFr s →
      WFr s' ∧ (∀ b x, s.find b = some x → s'.find b = some x)
  | [], s, s', hvs, h, hw => by
    rw [mapImagesH] at h
    cases h
    exact ⟨hw, fun _ _ hb => hb⟩
  | v :: rest, s, s', hvs, h, hw => by
    rw [mapImagesH] at h
    cases he : imageElemH s resultUrl titleV v with
    | none => rw [he] at h; exact Option.noConfusion h
    | some q =>
      rw [he] at h
      obtain ⟨s1, hv⟩ := q
      dsimp only at h
      cases hm : mapImagesH resultUrl titleV s1 rest with
      | none => rw [hm] at h; exact Option.noConfusion h
      | some q2 =>
        rw [hm] at h
        obtain ⟨s2, hvs2⟩ := q2
        cases h
        have hstep : WFr s1 ∧ (∀ b x, s.find b = some x → s1.find b = some x) := by
          rw [imageElemH] at he
          cases hu : imageUrlOf (hvalToStr (getPropV s v "src")) resultUrl with
          | none => rw [hu] at he; exact Option.noConfusion he
          | some u =>
            rw [hu] at he
            dsimp only at he
            cases he
            exact ⟨wfr_alloc _ _ hw, fun _ _ hb => find_alloc _ _ hb⟩
        obtain ⟨w2, fp2⟩ := mapImagesH_frame resultUrl titleV rest s1 _ _ hm hstep.1
        exact ⟨w2, fun b x hb => fp2 b x (hstep.2 b x hb)⟩

/-- The `Object.assign` fold writes only schema fields with write-safe values:
protected cells survive and the schema invariant is rebuilt. -/
theorem customFold_frame (schemaA : Nat) :
    ∀ (kvs : List (String × HVal)) (s : Store),
      WFr s → SchemaInv s schemaA → (∀ kv ∈ kvs, safeValB s kv.2 = true) →
      WFr (kvs.foldl (fun t kv => t.setProp schemaA kv.1 kv.2) s) ∧
      Pres s (kvs.foldl (fun t kv => t.setProp schemaA kv.1 kv.2) s) ∧
      RegStable s (kvs.foldl (fun t kv => t.setProp schemaA kv.1 kv.2) s) ∧
      SchemaInv (kvs.foldl (fun t kv => t.setProp schemaA kv.1 kv.2) s) schemaA
  | [], s, hw, hi, _ => ⟨hw, presRefl s, regStableRefl s, hi⟩
  | kv :: rest, s, hw, hi, hsafe => by
    rw [List.foldl_cons]
    have hw' : WFr (s.setProp schemaA kv.1 kv.2) := wfr_mutate _ _ hw
    have hp' : Pres s (s.setProp schemaA kv.1 kv.2) :=
      pres_setProp _ _ (schemaInv_region hi)
    have hr' : RegStable s (s.setProp schemaA kv.1 kv.2) := regStable_mutate _ _
    have hi' : SchemaInv (s.setProp schemaA kv.1 kv.2) schemaA :=
      schemaInv_setProp hi (hsafe kv (List.mem_cons_self kv rest))
    have hsafe' : ∀ kv' ∈ rest, safeValB (s.setProp schemaA kv.1 kv.2) kv'.2 = true :=
      fun kv' hm => safeValB_stable hr' (hsafe kv' (List.mem_cons_of_mem kv hm))
    obtain ⟨w2, p2, r2, i2⟩ := customFold_frame schemaA rest _ hw' hi' hsafe'
    exact ⟨w2, presTrans hp' p2, regStableTrans hr' r2, i2⟩

/-- One nested-schema iteration preserves protected cells and the invariants. -/
theorem addNestedStepH_frame {resultUrl : String} {schemaA : Nat} {s s' : Store} {nv : HVal}
    (h : addNestedStepH resultUrl schemaA s nv = some s')
    (hw : WFr s) (hi : SchemaInv s schemaA) :
    Pres s s' ∧ WFr s' ∧ RegStable s s' ∧ SchemaInv s' schemaA := by
  rw [addNestedStepH] at h
  dsimp only at h
  set ctx := hvalToStr (getPropV s nv "context") with hctx
  set s1 := (if jsTruthyH (s.getProp schemaA ctx) then s
    else ((s.alloc .freshR (.arr [])).1).setProp schemaA ctx
      (.ref (s.alloc .freshR (.arr [])).2)) with hs1
  have hstep1 : Pres s s1 ∧ WFr s1 ∧ RegStable s s1 ∧ SchemaInv s1 schemaA := by
    rw [hs1]
    split_ifs with htr
    · exact ⟨presRefl s, hw, regStableRefl s, hi⟩
    · have hia : SchemaInv ((s.alloc .freshR (.arr [])).1) schemaA := schemaInv_alloc _ _ hi
      have hnew : safeValB ((s.alloc .freshR (.arr [])).1)
          (.ref (s.alloc .freshR (.arr [])).2) = true := by
        have hfind : ((s.alloc .freshR (.arr [])).1).find ((s.alloc .freshR (.arr [])).2) =
            some (.freshR, .arr []) := find_alloc_self _ _ hw
        simp [safeValB, regionOf, hfind]
      refine ⟨presTrans (pres_alloc _ _) (pres_setProp _ _ (schemaInv_region hia)),
        wfr_mutate _ _ (wfr_alloc _ _ hw),
        regStableTrans (regStable_alloc _ _) (regStable_mutate _ _),
        schemaInv_setProp hia hnew⟩
  obtain ⟨p1, w1, r1, i1⟩ := hstep1
  split at h
  · exact Option.noConfusion h
  · rename_i nsFields habs
    split at h
    · rename_i ta hget
      split at h
      · rename_i rg hfind
        have hs' : s' = ((s1.alloc .freshR (.obj nsFields)).1).pushElem ta
            (.ref (s1.alloc .freshR (.obj nsFields)).2) := (Option.some_inj.mp h).symm
        subst hs'
        have i2 : SchemaInv ((s1.alloc .freshR (.obj nsFields)).1) schemaA :=
          schemaInv_alloc _ _ i1
        have hsafe_t : safeValB ((s1.alloc .freshR (.obj nsFields)).1) (.ref ta) = true := by
          have := getProp_safe i2 ctx
          rw [hget] at this
          exact this
        have hreg_t := region_of_safe_ref hsafe_t
        refine ⟨?_, ?_, ?_, ?_⟩
        · exact presTrans p1 (presTrans (pres_alloc _ _) (pres_pushElem _ hreg_t))
        · exact wfr_mutate _ _ (wfr_alloc _ _ w1)
        · exact regStableTrans r1
            (regStableTrans (regStable_alloc _ _) (regStable_mutate _ _))
        · exact schemaInv_pushElem i2
      · exact Option.noConfusion h
    · exact Option.noConfusion h

/-- The nested-schema loop preserves protected cells and the invariants. -/
theorem addNestedH_frame (resultUrl : String) (schemaA : Nat) :
    ∀ (nvs : List HVal) (s s' : Store),
      addNestedH resultUrl schemaA s nvs = some s' → WFr s → SchemaInv s schemaA →
      Pres s s' ∧ WFr s' ∧ RegStable s s' ∧ SchemaInv s' schemaA
  | [], s, s', h, hw, hi => by
    rw [addNestedH] at h
    cases h
    exact ⟨presRefl s, hw, regStableRefl s, hi⟩
  | nv :: rest, s, s', h, hw, hi => by
    rw [addNestedH] at h
    split at h
    · exact Option.noConfusion h
    · rename_i s1 hstep
      obtain ⟨p1, w1, r1, i1⟩ := addNestedStepH_frame hstep hw hi
      obtain ⟨p2, w2, r2, i2⟩ := addNestedH_frame resultUrl schemaA rest s1 s' h w1 i1
      exact ⟨presTrans p1 p2, w2, regStableTrans r1 r2, i2⟩

/-- The collapse fold writes only schema fields: protected cells survive. -/
theorem collapseFold_frame (schemaA : Nat) :
    ∀ (kvs : List (String × HVal)) (s : Store),
      SchemaRegion s schemaA →
      Pres s (kvs.foldl (fun s' kv =>
        match kv.2 with
        | .ref a =>
          match s'.find a with
          | some (_, .arr [x]) => s'.setProp schemaA kv.1 x
          | _ => s'
        | _ => s') s)
  | [], s, _ => presRefl s
  | kv :: rest, s, hr => by
    rw [List.foldl_cons]
    have hstep : Pres s (match kv.2 with
        | .ref a =>
          match s.find a with
          | some (_, .arr [x]) => s.setProp schemaA kv.1 x
          | _ => s
        | _ => s) ∧ SchemaRegion (match kv.2 with
        | .ref a =>
          match s.find a with
          | some (_, .arr [x]) => s.setProp schemaA kv.1 x
          | _ => s
        | _ => s) schemaA := by
      rcases hr with ⟨fs, hfs⟩
      have hregion : ∀ r o, s.find schemaA = some (r, o) → r = .freshR ∨ r = .customR := by
        intro r o hh
        rw [hfs] at hh
        cases hh
        exact Or.inl rfl
      cases hv : kv.2 with
      | ref a =>
        dsimp only
        cases hf : s.find a with
        | none => exact ⟨presRefl s, ⟨fs, hfs⟩⟩
        | some ro =>
          obtain ⟨rg, ob⟩ := ro
          cases ob with
          | obj fs2 => exact ⟨presRefl s, ⟨fs, hfs⟩⟩
          | arr xs =>
            match xs with
            | [] => exact ⟨presRefl s, ⟨fs, hfs⟩⟩
            | [x] =>
              refine ⟨pres_setProp _ _ hregion, ?_⟩
              refine ⟨upsertH fs kv.1 x, ?_⟩
              show (s.mutate schemaA _).find schemaA = _
              rw [find_mutate, if_pos rfl, hfs]
              rfl
            | x :: y :: xs => exact ⟨presRefl s, ⟨fs, hfs⟩⟩
      | str v => exact ⟨presRefl s, ⟨fs, hfs⟩⟩
      | num v => exact ⟨presRefl s, ⟨fs, hfs⟩⟩
      | bool v => exact ⟨presRefl s, ⟨fs, hfs⟩⟩
      | null => exact ⟨presRefl s, ⟨fs, hfs⟩⟩
      | undefinedV => exact ⟨presRefl s, ⟨fs, hfs⟩⟩
    exact presTrans hstep.1 (collapseFold_frame schemaA rest _ hstep.2)

/-- The final collapse preserves protected cells. -/
theorem collapseH_frame {s : Store} {schemaA : Nat} (hr : SchemaRegion s schemaA) :
    Pres s (collapseH s schemaA) := by
  unfold collapseH
  rcases hr with ⟨fs, hfs⟩
  rw [hfs]
  exact collapseFold_frame schemaA fs s ⟨fs, hfs⟩

/-- C9: synthesis does not mutate its inputs.  On any successful run over a
well-formed store, every cell of the `AnalysisResult` graph (region `resultR`,
which includes `scrapedData.images`) and of the nested-schema entries'
properties (region `nestedR`) reads back unchanged — same region, same exact
contents — from the final store.  Hypotheses encode the input layout: the
result and custom-properties records are allocated, the result's
`title`/`url`/`description` are primitives, and the custom-properties values
reference only custom or fresh cells (no aliasing into the protected graphs —
which is how the tool server calls it: custom properties arrive freshly parsed
from the request JSON). -/
theorem synthesis_frame (s0 : Store) (resultA : Nat) (mainSchema : String)
    (nestedVs : List HVal) (customA : Nat) (p : Store × Nat)
    (rfs cfs : List (String × HVal))
    (hw : WFr s0)
    (hra : s0.find resultA = some (.resultR, .obj rfs))
    (ht : (s0.getProp resultA "title").isRef = false)
    (hu : (s0.getProp resultA "url").isRef = false)
    (hd : (s0.getProp resultA "description").isRef = false)
    (hca : s0.find customA = some (.customR, .obj cfs))
    (hcs : ∀ kv ∈ cfs, safeValB s0 kv.2 = true)
    (h : generateSchemaMarkupH s0 resultA mainSchema nestedVs customA = some p) :
    Pres s0 p.1 := by
  rw [generateSchemaMarkupH] at h
  dsimp only at h
  set F0 : List (String × HVal) := [("@context", HVal.str "https://schema.org"),
    ("@type", HVal.str mainSchema), ("name", s0.getProp resultA "title"),
    ("url", s0.getProp resultA "url")] with hF0
  set s1 := (s0.alloc .freshR (.obj F0)).1 with hs1
  set schemaA := (s0.alloc .freshR (.obj F0)).2 with hschemaA
  have hschemaA' : schemaA = s0.next := rfl
  have hcaLT : customA < s0.next := find_lt_next hw hca
  have hcaNE : customA ≠ schemaA := by
    rw [hschemaA']
    exact Nat.ne_of_lt hcaLT
  have hw1 : WFr s1 := wfr_alloc _ _ hw
  have hp1 : Pres s0 s1 := pres_alloc _ _
  have hr1 : RegStable s0 s1 := regStable_alloc _ _
  have hfs1 : s1.find schemaA = some (.freshR, .obj F0) := by
    rw [hs1, hschemaA']
    exact find_alloc_self _ _ hw
  have hi1 : SchemaInv s1 schemaA := by
    refine ⟨F0, hfs1, ?_⟩
    intro kv hkv
    rw [hF0] at hkv
    simp only [List.mem_cons, List.not_mem_nil, or_false] at hkv
    rcases hkv with rfl | rfl | rfl | rfl
    · rfl
    · rfl
    · exact safeValB_of_not_ref ht
    · exact safeValB_of_not_ref hu
  have hcust1 : s1.find customA = some (.customR, .obj cfs) := by
    rw [hs1]
    exact find_alloc _ _ hca
  have hraLT : resultA < s0.next := find_lt_next hw hra
  have hdesc1 : (s1.getProp resultA "description").isRef = false := by
    rw [hs1, getProp_congr (find_alloc_lt _ _ hraLT)]
    exact hd
  set s2 := (if jsTruthyH (s1.getProp resultA "description") then
      s1.setProp schemaA "description" (s1.getProp resultA "description") else s1) with hs2
  have hstep2 : WFr s2 ∧ Pres s1 s2 ∧ RegStable s1 s2 ∧ SchemaInv s2 schemaA ∧
      s2.find customA = some (.customR, .obj cfs) := by
    rw [hs2]
    split_ifs with htr
    · refine ⟨wfr_mutate _ _ hw1, pres_setProp _ _ (schemaInv_region hi1),
        regStable_mutate _ _, schemaInv_setProp hi1 (safeValB_of_not_ref hdesc1), ?_⟩
      exact (find_mutate_ne hcaNE).trans hcust1
    · exact ⟨hw1, presRefl s1, regStableRefl s1, hi1, hcust1⟩
  obtain ⟨hw2, hp2, hr2, hi2, hcust2⟩ := hstep2
  split at h
  · exact Option.noConfusion h
  · rename_i s5 heq5
    have hstep5 : WFr s5 ∧ Pres s2 s5 ∧ RegStable s2 s5 ∧ SchemaInv s5 schemaA ∧
        s5.find customA = some (.customR, .obj cfs) := by
      split_ifs at heq5 with himg
      · split at heq5
        · exact Option.noConfusion heq5
        · rename_i s3 hvs hmap
          have hs5 : s5 = ((s3.alloc .freshR (.arr hvs)).1).setProp schemaA "image"
              (.ref (s3.alloc .freshR (.arr hvs)).2) := (Option.some_inj.mp heq5).symm
          subst hs5
          obtain ⟨w3, fp3⟩ := mapImagesH_frame _ _ _ _ _ _ hmap hw2
          have r3 : RegStable s2 s3 := regStable_of_findPres fp3
          have p3 : Pres s2 s3 := fun a r o ha _ => fp3 a _ ha
          have i3 : SchemaInv s3 schemaA := by
            rcases hi2 with ⟨fs, hf, hsf⟩
            exact ⟨fs, fp3 _ _ hf, fun kv hkv => safeValB_stable r3 (hsf kv hkv)⟩
          have hc3 : s3.find customA = some (.customR, .obj cfs) := fp3 _ _ hcust2
          have i4 : SchemaInv ((s3.alloc .freshR (.arr hvs)).1) schemaA :=
            schemaInv_alloc _ _ i3
          have hnew : safeValB ((s3.alloc .freshR (.arr hvs)).1)
              (.ref (s3.alloc .freshR (.arr hvs)).2) = true := by
            have hfind : ((s3.alloc .freshR (.arr hvs)).1).find
                ((s3.alloc .freshR (.arr hvs)).2) = some (.freshR, .arr hvs) :=
              find_alloc_self _ _ w3
            simp [safeValB, regionOf, hfind]
          have hc4 : ((s3.alloc .freshR (.arr hvs)).1).find customA =
              some (.customR, .obj cfs) := find_alloc _ _ hc3
          exact ⟨wfr_mutate _ _ (wfr_alloc _ _ w3),
            presTrans p3 (presTrans (pres_alloc _ _) (pres_setProp _ _ (schemaInv_region i4))),
            regStableTrans r3 (regStableTrans (regStable_alloc _ _) (regStable_mutate _ _)),
            schemaInv_setProp i4 hnew,
            (find_mutate_ne hcaNE).trans hc4⟩
      · have hs5 : s5 = s2 := (Option.some_inj.mp heq5).symm
        subst hs5
        exact ⟨hw2, presRefl s2, regStableRefl s2, hi2, hcust2⟩
    obtain ⟨hw5, hp5, hr5, hi5, hcust5⟩ := hstep5
    have hfieldsEq : objFieldsH s5 customA = cfs := by
      unfold objFieldsH
      rw [hcust5]
    rw [hfieldsEq] at h
    have hcs5 : ∀ kv ∈ cfs, safeValB s5 kv.2 = true := fun kv hkv =>
      safeValB_stable (regStableTrans hr1 (regStableTrans hr2 hr5)) (hcs kv hkv)
    obtain ⟨w6, p6, r6, i6⟩ := customFold_frame schemaA cfs s5 hw5 hi5 hcs5
    split at h
    · exact Option.noConfusion h
    · rename_i s7 h7
      obtain ⟨p7, w7, r7, i7⟩ := addNestedH_frame _ _ nestedVs _ _ h7 w6 i6
      have hreg7 : SchemaRegion s7 schemaA := by
        rcases i7 with ⟨fs, hf, _⟩
        exact ⟨fs, hf⟩
      have hpp : p = (collapseH s7 schemaA, schemaA) := (Option.some_inj.mp h).symm
      rw [hpp]
      exact presTrans hp1 (presTrans hp2 (presTrans hp5 (presTrans p6
        (presTrans p7 (collapseH_frame hreg7)))))

/-- A concrete input heap: an analysis result (with its scraped-data graph), one
nested-schema entry with its properties object, and an empty custom-properties
object. -/
def storeW : Store :=
  { cells := [
      (0, .resultR, .obj [("title", .str "T"), ("url", .str "https://x.test/page"),
        ("description", .str ""), ("scrapedData", .ref 1)]),
      (1, .resultR, .obj [("images", .ref 2)]),
      (2, .resultR, .arr []),
      (3, .nestedR, .obj [("type", .str "Offer"), ("context", .str "offers"),
        ("properties", .ref 4)]),
      (4, .nestedR, .obj [("price", .str "10")]),
      (5, .customR, .obj [])],
    next := 6 }

/-- Witness for C9 at the concrete heap: the run succeeds and the nested
properties cell and the images cell are untouched in the final store. -/
theorem synthesis_frame_witness :
    ∃ p, generateSchemaMarkupH storeW 0 "Product" [.ref 3] 5 = some p ∧
      p.1.find 4 = some (.nestedR, .obj [("price", .str "10")]) ∧
      p.1.find 2 = some (.resultR, .arr []) := by
  cases hrun : generateSchemaMarkupH storeW 0 "Product" [.ref 3] 5 with
  | none => exact absurd hrun (by decide)
  | some p =>
    have hframe := synthesis_frame storeW 0 "Product" [.ref 3] 5 p
      [("title", .str "T"), ("url", .str "https://x.test/page"),
        ("description", .str ""), ("scrapedData", .ref 1)] []
      (by unfold WFr; decide) (by decide) (by decide) (by decide) (by decide) (by decide)
      (fun kv hkv => absurd hkv (List.not_mem_nil kv)) hrun
    exact ⟨p, rfl, hframe 4 _ _ (by decide) (Or.inr rfl), hframe 2 _ _ (by decide) (Or.inl rfl)⟩

end Schematron
